import Mathlib

/-!
Verification of the core of the `rtow` path-traced renderer against its
natural-language specification.  The Rust source is shallowly embedded:
`f64` arithmetic is idealised as real arithmetic (`ℝ`), `Option<T>` becomes
`Option`, and an `f64` upper bound that may be `f64::INFINITY` is embedded
as `Option ℝ` with `none` standing for positive infinity.  Stateful random
number generators become explicit streams of reals threaded through the
functions that consume them.
-/

noncomputable section
open scoped Classical

namespace Rtow

/-- Embeds `EPSILON` from `math.rs`. -/
def EPSILON : ℝ := 1e-9

/-- Embeds `Vec3` (`nalgebra::Vector3<f64>`): three real components. -/
@[ext] structure Vec3 where
  x : ℝ
  y : ℝ
  z : ℝ

namespace Vec3

/-- Componentwise addition. -/
def add (a b : Vec3) : Vec3 := ⟨a.x + b.x, a.y + b.y, a.z + b.z⟩

/-- Componentwise subtraction. -/
def sub (a b : Vec3) : Vec3 := ⟨a.x - b.x, a.y - b.y, a.z - b.z⟩

/-- Componentwise negation. -/
def neg (a : Vec3) : Vec3 := ⟨-a.x, -a.y, -a.z⟩

/-- Scalar multiplication. -/
def smul (s : ℝ) (a : Vec3) : Vec3 := ⟨s * a.x, s * a.y, s * a.z⟩

/-- Division of a vector by a scalar, as in Rust `v / s`. -/
def divScalar (a : Vec3) (s : ℝ) : Vec3 := ⟨a.x / s, a.y / s, a.z / s⟩

/-- Embeds nalgebra `component_mul`. -/
def compMul (a b : Vec3) : Vec3 := ⟨a.x * b.x, a.y * b.y, a.z * b.z⟩

/-- Embeds nalgebra `dot`. -/
def dot (a b : Vec3) : ℝ := a.x * b.x + a.y * b.y + a.z * b.z

/-- Embeds nalgebra `cross`. -/
def cross (a b : Vec3) : Vec3 :=
  ⟨a.y * b.z - a.z * b.y, a.z * b.x - a.x * b.z, a.x * b.y - a.y * b.x⟩

/-- Embeds nalgebra `norm_squared`. -/
def normSq (a : Vec3) : ℝ := a.x * a.x + a.y * a.y + a.z * a.z

/-- Embeds nalgebra `norm`. -/
def norm (a : Vec3) : ℝ := Real.sqrt a.normSq

/-- Embeds nalgebra `inf` (componentwise minimum). -/
def inf (a b : Vec3) : Vec3 := ⟨min a.x b.x, min a.y b.y, min a.z b.z⟩

/-- Embeds nalgebra `sup` (componentwise maximum). -/
def sup (a b : Vec3) : Vec3 := ⟨max a.x b.x, max a.y b.y, max a.z b.z⟩

/-- Embeds `Vec3::from_element`. -/
def fromElement (s : ℝ) : Vec3 := ⟨s, s, s⟩

/-- Embeds nalgebra `Vec3::max()`: the maximum component. -/
def maxComp (a : Vec3) : ℝ := max a.x (max a.y a.z)

/-- Component access by axis index, as in `v[i]` for `i in 0..3`. -/
def nth (a : Vec3) : Fin 3 → ℝ
  | 0 => a.x
  | 1 => a.y
  | 2 => a.z

/-- Embeds nalgebra `imax`: index of the (first) maximum component. -/
def imax (a : Vec3) : Fin 3 :=
  if a.y ≤ a.x ∧ a.z ≤ a.x then 0 else if a.z ≤ a.y then 1 else 2

/-- Embeds `Unit3::new_normalize`: divide a vector by its norm. -/
def normalize (a : Vec3) : Vec3 := a.divScalar a.norm

instance : Add Vec3 := ⟨add⟩
instance : Sub Vec3 := ⟨sub⟩
instance : Neg Vec3 := ⟨neg⟩
instance : Zero Vec3 := ⟨⟨0, 0, 0⟩⟩
instance : SMul ℝ Vec3 := ⟨smul⟩

end Vec3

/-- Embeds `Ray` from `math.rs`; the direction is a `Unit3`, embedded as a
`Vec3` whose unit length is carried as a hypothesis where it matters. -/
structure Ray where
  origin : Vec3
  dir : Vec3

/-- Embeds `Ray::at`. -/
def Ray.at (r : Ray) (t : ℝ) : Vec3 := r.origin + t • r.dir

/-- Embeds `OrthoNormalBasis` from `math.rs`. -/
structure OrthoNormalBasis where
  u : Vec3
  v : Vec3
  w : Vec3

namespace OrthoNormalBasis

/-- Embeds `OrthoNormalBasis::from_w`. -/
def from_w (w : Vec3) : OrthoNormalBasis :=
  let other : Vec3 := if w.dot ⟨1, 0, 0⟩ > 0.9999 then ⟨0, 1, 0⟩ else ⟨1, 0, 0⟩
  let u := Vec3.normalize (w.cross other)
  let v := w.cross u
  ⟨u, v, w⟩

/-- Embeds `trans_from_canonical` (world to local coordinates). -/
def trans_from_canonical (b : OrthoNormalBasis) (p : Vec3) : Vec3 :=
  ⟨p.dot b.u, p.dot b.v, p.dot b.w⟩

/-- Embeds `trans_to_canonical` (local to world coordinates). -/
def trans_to_canonical (b : OrthoNormalBasis) (p : Vec3) : Vec3 :=
  p.nth 0 • b.u + p.nth 1 • b.v + p.nth 2 • b.w

end OrthoNormalBasis

/-- Embeds `Aabb` from `math.rs` (a min corner and a max corner). -/
@[ext] structure Aabb where
  min_point : Vec3
  max_point : Vec3

namespace Aabb

/-- Embeds `Aabb::new`. -/
def new (a b : Vec3) : Aabb := ⟨a.inf b, a.sup b⟩

/-- Embeds `Aabb::at_point`. -/
def at_point (p : Vec3) : Aabb := ⟨p, p⟩

/-- Embeds `Aabb::extend`. -/
def extend (b : Aabb) (p : Vec3) : Aabb := ⟨b.min_point.inf p, b.max_point.sup p⟩

/-- Embeds `Aabb::union`. -/
def union (a b : Aabb) : Aabb :=
  ⟨a.min_point.inf b.min_point, a.max_point.sup b.max_point⟩

/-- Embeds `Aabb::centroid`. -/
def centroid (b : Aabb) : Vec3 := (b.min_point + b.max_point).divScalar 2

end Aabb

/-- One axis of the slab test: the entry/exit parameters `(t0, t1)` for the
slab `[mn, mx]`, swapped when the inverse direction is negative, exactly as
in `Aabb::hit`.  Sound for directions with no zero component (a zero
component makes the Rust code produce IEEE infinities, which the real-number
embedding does not model). -/
def slabT (o d mn mx : ℝ) : ℝ × ℝ :=
  let invD := 1 / d
  let t0 := (mn - o) * invD
  let t1 := (mx - o) * invD
  if 0 ≤ invD then (t0, t1) else (t1, t0)

/-- Strict comparison of a real against an `Option ℝ` upper bound where
`none` stands for `f64::INFINITY`. -/
def oLT (t : ℝ) : Option ℝ → Prop
  | none => True
  | some m => t < m

/-- `min` against an `Option ℝ` upper bound where `none` is `+∞`. -/
def oMin : Option ℝ → ℝ → ℝ
  | none, t => t
  | some m, t => min m t

/-- Embeds `Aabb::hit` (the three-axis slab test) from `math.rs`, with
`t_max` given as `Option ℝ` (`none` = `f64::INFINITY`).  The running
interval is shrunk axis by axis and the box is rejected as soon as the
interval becomes empty; an early return and a failed final check are folded
into one conjunction, which has the same value. -/
def Aabb.hit (b : Aabb) (ray : Ray) (tmin : ℝ) (tmaxO : Option ℝ) : Prop :=
  let px := slabT ray.origin.x ray.dir.x b.min_point.x b.max_point.x
  let tmin1 := max tmin px.1
  let tmax1 := oMin tmaxO px.2
  let py := slabT ray.origin.y ray.dir.y b.min_point.y b.max_point.y
  let tmin2 := max tmin1 py.1
  let tmax2 := min tmax1 py.2
  let pz := slabT ray.origin.z ray.dir.z b.min_point.z b.max_point.z
  let tmin3 := max tmin2 pz.1
  let tmax3 := min tmax2 pz.2
  ¬tmax1 ≤ tmin1 ∧ ¬tmax2 ≤ tmin2 ∧ ¬tmax3 ≤ tmin3

/-- A deterministic stream of uniform draws standing in for `dyn RngCore`;
`pos` is how many draws have been consumed. -/
structure Rng where
  stream : ℕ → ℝ
  pos : ℕ

/-- Draw the next uniform value and advance the stream. -/
def Rng.next (r : Rng) : ℝ × Rng := (r.stream r.pos, ⟨r.stream, r.pos + 1⟩)

/-- Embeds `HitSide` (which face of the surface the ray struck). -/
inductive HitSide where
  | Inside
  | Outside

/-- Embeds `shading::cos_theta`: the z component of a local direction. -/
def cos_theta (dir : Vec3) : ℝ := dir.z

/-- Embeds `shading::sin_theta`. -/
def sin_theta (dir : Vec3) : ℝ := Real.sqrt (1 - cos_theta dir ^ 2)

/-- Embeds `shading::same_hemisphere`. -/
def same_hemisphere (incoming outgoing : Vec3) : Prop :=
  incoming.z * outgoing.z > 0

/-- Embeds `ShadingInfo` from `shading.rs`. -/
structure ShadingInfo where
  side : HitSide
  outgoing : Vec3

/-- Embeds `ShadingInfo::cos_theta`. -/
def ShadingInfo.cosTheta (s : ShadingInfo) : ℝ := cos_theta s.outgoing

/-- Embeds `ShadingInfo::sin_theta`. -/
def ShadingInfo.sinTheta (s : ShadingInfo) : ℝ := sin_theta s.outgoing

/-- Embeds the tagged `Pdf` sum from `shading.rs`. -/
inductive Pdf where
  | Real (val : ℝ)
  | Delta

/-- Embeds `Pdf::factor`. -/
def Pdf.factor : Pdf → ℝ
  | .Real val => 1 / val
  | .Delta => 1

/-- Embeds `SampledRadiance` from `shading.rs`. -/
structure SampledRadiance where
  dir : Vec3
  color : Vec3
  pdf : Pdf

/-- Embeds `SampledRadiance::new_real`. -/
def SampledRadiance.new_real (dir color : Vec3) (pdf : ℝ) : SampledRadiance :=
  ⟨dir, color, .Real pdf⟩

/-- Embeds `SampledRadiance::new_delta`. -/
def SampledRadiance.new_delta (dir color : Vec3) : SampledRadiance :=
  ⟨dir, color, .Delta⟩

/-- Embeds `SampledRadiance::scaled_color`. -/
def SampledRadiance.scaled_color (s : SampledRadiance) : Vec3 :=
  (cos_theta s.dir * s.pdf.factor) • s.color

/-- A material as the integrator sees it: the four operations of the
`Material` trait, with the random generator threaded explicitly. -/
structure MaterialM where
  sample_bsdf : ShadingInfo → Rng → Option SampledRadiance × Rng
  bsdf : ShadingInfo → Vec3 → Vec3
  pdf : ShadingInfo → Vec3 → ℝ
  is_always_specular : Bool

/-- Embeds `SpecularScatter` from `material.rs`. -/
structure SpecularScatter where
  dir : Vec3
  attenuation : Vec3

/-- Embeds the blanket `impl<M: SpecularMaterial> Material for M`:
`sample_bsdf` divides the attenuation by `cos_theta` of the scattered
direction and tags the sample `Delta`. -/
def specularMaterial
    (smpl : ShadingInfo → Rng → Option SpecularScatter × Rng) : MaterialM where
  sample_bsdf := fun shading rng =>
    match smpl shading rng with
    | (none, rng') => (none, rng')
    | (some scatter, rng') =>
        (some (SampledRadiance.new_delta scatter.dir
          (scatter.attenuation.divScalar (cos_theta scatter.dir))), rng')
  bsdf := fun _ _ => 0
  pdf := fun _ _ => 0
  is_always_specular := true

/-- Embeds `CosWeightedHemisphere::sample` from `distr.rs`: two uniform
draws give a cosine-weighted direction. -/
def cosWeightedHemisphere (rng : Rng) : Vec3 × Rng :=
  let (radiusSquared, rng1) := rng.next
  let (u, rng2) := rng1.next
  let phi := u * (2 * Real.pi)
  let radius := Real.sqrt radiusSquared
  (⟨radius * Real.cos phi, radius * Real.sin phi,
    Real.sqrt (1 - radiusSquared)⟩, rng2)

/-- Embeds `Diffuse::sample_bsdf`. -/
def Diffuse.sample_bsdf (albedo : Vec3) (_shading : ShadingInfo) (rng : Rng) :
    Option SampledRadiance × Rng :=
  let (dir, rng') := cosWeightedHemisphere rng
  (some (SampledRadiance.new_real dir (Real.pi⁻¹ • albedo)
    (cos_theta dir * Real.pi⁻¹)), rng')

/-- Embeds `Diffuse::bsdf`. -/
def Diffuse.bsdf (albedo : Vec3) (_shading : ShadingInfo) (_incoming : Vec3) :
    Vec3 :=
  Real.pi⁻¹ • albedo

/-- Embeds `Diffuse::pdf` exactly as written in `material.rs`: the cosine of
the incoming direction when both directions share a hemisphere, else 0.
(Note the missing `FRAC_1_PI` factor; see the claim about this function.) -/
def Diffuse.pdf (shading : ShadingInfo) (incoming : Vec3) : ℝ :=
  if same_hemisphere incoming shading.outgoing then cos_theta incoming else 0

/-- Embeds the `Diffuse` material as a `MaterialM` record. -/
def diffuseMaterial (albedo : Vec3) : MaterialM where
  sample_bsdf := Diffuse.sample_bsdf albedo
  bsdf := Diffuse.bsdf albedo
  pdf := Diffuse.pdf
  is_always_specular := false

/-- Embeds `reflect_z` from `material.rs`. -/
def reflect_z (incoming : Vec3) : Vec3 := ⟨-incoming.x, -incoming.y, incoming.z⟩

/-- Embeds `Mirror::sample_specular_scatter`. -/
def Mirror.sample_specular_scatter (color : Vec3) (shading : ShadingInfo)
    (rng : Rng) : Option SpecularScatter × Rng :=
  (some ⟨reflect_z shading.outgoing, color⟩, rng)

/-- Embeds `schlick_reflectance`. -/
def schlick_reflectance (r0 cosT : ℝ) : ℝ := r0 + (1 - r0) * (1 - cosT) ^ 5

/-- Embeds `dielectric_reflectance`: Schlick with `r0 = ((1−η)/(1+η))²`. -/
def dielectric_reflectance (cosT eta : ℝ) : ℝ :=
  schlick_reflectance (((1 - eta) / (1 + eta)) ^ 2) cosT

/-- The refractive ratio `η = n₁/n₂` chosen from the hit side in
`Dielectric::sample_specular_scatter`. -/
def dielectricEta (refractive_index : ℝ) : HitSide → ℝ
  | .Inside => refractive_index
  | .Outside => 1 / refractive_index

/-- Embeds `Dielectric::sample_specular_scatter`.  The single uniform draw
is taken only when the total-internal-reflection test fails, matching the
short-circuit `||` in the source. -/
def Dielectric.sample_specular_scatter (refractive_index : ℝ)
    (shading : ShadingInfo) (rng : Rng) : Option SpecularScatter × Rng :=
  let eta : ℝ := dielectricEta refractive_index shading.side
  let outgoing := shading.outgoing
  let cosT := shading.cosTheta
  let sinT := shading.sinTheta
  if eta * sinT > 1 then
    (some ⟨Vec3.normalize (reflect_z outgoing), Vec3.fromElement 1⟩, rng)
  else
    let (u, rng') := rng.next
    if u < dielectric_reflectance cosT eta then
      (some ⟨Vec3.normalize (reflect_z outgoing), Vec3.fromElement 1⟩, rng')
    else
      let up : Vec3 := ⟨0, 0, 1⟩
      let refractedPerp := eta • (cosT • up - outgoing)
      let refractedPar := (-Real.sqrt (1 - refractedPerp.normSq)) • up
      (some ⟨Vec3.normalize (refractedPerp + refractedPar), Vec3.fromElement 1⟩,
        rng')

/-- Embeds `Sphere` from `geom.rs`. -/
structure Sphere where
  center : Vec3
  radius : ℝ

/-- Embeds `Sphere::aabb` (equally `bounds` in the spec): the box
`center ± radius` built through `Aabb::new`. -/
def Sphere.aabb (s : Sphere) : Aabb :=
  Aabb.new (s.center - Vec3.fromElement s.radius)
    (s.center + Vec3.fromElement s.radius)

/-- Embeds `Sphere::hit` exactly as written in `src/geom.rs`: the quadratic
is solved and the first root strictly greater than `EPSILON` is returned,
with no upper bound and no hit record beyond `t` itself. -/
def Sphere.hit (s : Sphere) (ray : Ray) : Option ℝ :=
  let oc := ray.origin - s.center
  let b := oc.dot ray.dir
  let c := oc.normSq - s.radius * s.radius
  let discriminant := b * b - c
  if discriminant < 0 then none
  else
    let radical := Real.sqrt discriminant
    let t1 := -b - radical
    let t2 := -b + radical
    if t1 > EPSILON then some t1
    else if t2 > EPSILON then some t2
    else none

/-- Embeds `Sphere::outward_normal_at` from `geom.rs`. -/
def Sphere.outward_normal_at (s : Sphere) (point : Vec3) : Vec3 :=
  Vec3.normalize (point - s.center)

/-- The primitive-level hit record (`RawHitInfo`): a parameter `t` and the
outward normal at the hit point. -/
structure RawHitInfo where
  t : ℝ
  outward_normal : Vec3

/-- Modelled from the spec: the `Geom::hit(ray, t_max) -> RawHitInfo?`
operation that `BvhNode::hit` invokes on a leaf is absent from the given
`src/geom.rs` (which holds an older, `t_max`-less `Geom` trait), so it is
reconstructed from spec §4.1: solve the quadratic, return none when
`disc < 0`, otherwise try `−b − √disc` then `−b + √disc` and report the
first root in `[EPSILON, t_max)` together with the outward normal
`(hit_point − center)/r`.  `t_max` is `Option ℝ` with `none` = infinity. -/
def Sphere.hitT (s : Sphere) (ray : Ray) (tmaxO : Option ℝ) : Option RawHitInfo :=
  let oc := ray.origin - s.center
  let b := oc.dot ray.dir
  let c := oc.normSq - s.radius * s.radius
  let discriminant := b * b - c
  if discriminant < 0 then none
  else
    let radical := Real.sqrt discriminant
    let t1 := -b - radical
    let t2 := -b + radical
    if EPSILON ≤ t1 ∧ oLT t1 tmaxO then
      some ⟨t1, (ray.at t1 - s.center).divScalar s.radius⟩
    else if EPSILON ≤ t2 ∧ oLT t2 tmaxO then
      some ⟨t2, (ray.at t2 - s.center).divScalar s.radius⟩
    else none

/-- Embeds `Primitive` from `scene/prim.rs`; the only geometry in the
repository is the sphere, so the boxed `dyn Geom` is a `Sphere`. -/
structure Primitive where
  geom : Sphere
  material : MaterialM

/-- Embeds `BvhNode` from `scene/bvh.rs`: a leaf holding one primitive or
an interior node with two children, each caching its bounds. -/
inductive BvhNode where
  | leaf (bounds : Aabb) (prim : Primitive)
  | interior (bounds : Aabb) (left right : BvhNode)

/-- The cached bounds of a node. -/
def BvhNode.bounds : BvhNode → Aabb
  | .leaf b _ => b
  | .interior b _ _ => b

/-- The primitives stored in a subtree, in left-to-right order. -/
def BvhNode.subtreePrims : BvhNode → List Primitive
  | .leaf _ p => [p]
  | .interior _ l r => l.subtreePrims ++ r.subtreePrims

/-- Every node of a tree, the root included. -/
def BvhNode.allNodes : BvhNode → List BvhNode
  | .leaf b p => [.leaf b p]
  | .interior b l r => .interior b l r :: (l.allNodes ++ r.allNodes)

/-- The upper bound passed to the right child in `BvhNode::hit`: the left
child's hit parameter when the left child hit, else the incoming bound. -/
def tightened (leftHit : Option (Primitive × RawHitInfo)) (tmaxO : Option ℝ) :
    Option ℝ :=
  match leftHit with
  | some (_, info) => some info.t
  | none => tmaxO

/-- Embeds `BvhNode::hit` from `scene/bvh.rs`: slab-test the cached bounds
against `[EPSILON, t_max]`, intersect the leaf primitive or recurse into
both children, the right child under the bound tightened by the left hit,
and keep the nearer of the two hits (the left hit on ties). -/
def BvhNode.hit : BvhNode → Ray → Option ℝ → Option (Primitive × RawHitInfo)
  | .leaf bounds prim, ray, tmaxO =>
      if bounds.hit ray EPSILON tmaxO then
        (prim.geom.hitT ray tmaxO).map (fun info => (prim, info))
      else none
  | .interior bounds left right, ray, tmaxO =>
      if bounds.hit ray EPSILON tmaxO then
        let leftHit := left.hit ray tmaxO
        let rightHit := right.hit ray (tightened leftHit tmaxO)
        match leftHit, rightHit with
        | none, some h => some h
        | some (pl, il), some (pr, ir) =>
            if ir.t < il.t then some (pr, ir) else some (pl, il)
        | _, _ => leftHit
      else none

/-- Embeds `TaggedPrimitive` from `scene/bvh.rs`. -/
structure TaggedPrimitive where
  prim : Primitive
  bounds : Aabb
  centroid : Vec3

/-- Tagging of one primitive as done in `bvh::build`. -/
def tagPrimitive (p : Primitive) : TaggedPrimitive :=
  ⟨p, p.geom.aabb, p.geom.aabb.centroid⟩

/-- The node bounds computed in `do_build`: the fold of `Aabb::union` over
the (not yet partitioned) primitives' boxes. -/
def boundsOf (tp0 : TaggedPrimitive) (rest : List TaggedPrimitive) : Aabb :=
  rest.foldl (fun acc tp => acc.union tp.bounds) tp0.bounds

/-- The split axis chosen in `do_build`: the longest axis of the box of the
centroids. -/
def splitAxis (tp0 : TaggedPrimitive) (rest : List TaggedPrimitive) : Fin 3 :=
  let centroidBounds := rest.foldl (fun acc tp => acc.extend tp.centroid)
    (Aabb.at_point tp0.centroid)
  (centroidBounds.max_point - centroidBounds.min_point).imax

/-- The centroid comparator used for the median partition in `do_build`. -/
def sortKey (axis : Fin 3) (a b : TaggedPrimitive) : Bool :=
  decide (a.centroid.nth axis ≤ b.centroid.nth axis)

/-- Embeds `do_build` from `scene/bvh.rs`.  `select_nth_unstable_by` at the
median index leaves an unspecified order inside each half but guarantees
that the lower half precedes the upper half under the centroid comparator;
it is modelled by a full stable sort on the split axis followed by a split
at the median, which satisfies those guarantees (stability matches the
tie-by-input-order reading of the spec). -/
def do_build : List TaggedPrimitive → Option BvhNode
  | [] => none
  | [tp] => some (.leaf tp.bounds tp.prim)
  | tp0 :: tp1 :: rest =>
      let l := tp0 :: tp1 :: rest
      let mid := l.length / 2
      let sorted := l.mergeSort (sortKey (splitAxis tp0 (tp1 :: rest)))
      match do_build (sorted.take mid), do_build (sorted.drop mid) with
      | some lt, some rt => some (.interior (boundsOf tp0 (tp1 :: rest)) lt rt)
      | _, _ => none
  termination_by l => l.length
  decreasing_by
  · simp only [List.length_take,
      (List.mergeSort_perm _ _).length_eq, List.length_cons]
    omega
  · simp only [List.length_drop,
      (List.mergeSort_perm _ _).length_eq, List.length_cons]
    omega

/-- Embeds `bvh::build`. -/
def build (primitives : List Primitive) : Option BvhNode :=
  do_build (primitives.map tagPrimitive)

/-- Box containment: `inner` lies inside `outer` componentwise. -/
def subBox (inner outer : Aabb) : Prop :=
  outer.min_point.x ≤ inner.min_point.x ∧
  outer.min_point.y ≤ inner.min_point.y ∧
  outer.min_point.z ≤ inner.min_point.z ∧
  inner.max_point.x ≤ outer.max_point.x ∧
  inner.max_point.y ≤ outer.max_point.y ∧
  inner.max_point.z ≤ outer.max_point.z

/-- Fold of `Aabb::union` over a list of boxes starting from a first box,
the shape in which `do_build` computes a node's bounds. -/
def unionFold (b : Aabb) (l : List Aabb) : Aabb := l.foldl Aabb.union b

/-- The union of a nonempty list of boxes (`none` on the empty list). -/
def ulist : List Aabb → Option Aabb
  | [] => none
  | b :: rest => some (unionFold b rest)

/-- The well-formedness invariant of a built BVH: every leaf caches exactly
its primitive's box and every interior node caches the union of the boxes
of all primitives below it. -/
def BvhNode.wf : BvhNode → Prop
  | .leaf bounds prim => bounds = prim.geom.aabb
  | .interior bounds l r =>
      some bounds =
        ulist ((BvhNode.interior bounds l r).subtreePrims.map
          (fun p => p.geom.aabb)) ∧
      l.wf ∧ r.wf

/-- Modelled from the spec: `HitInfo` and `HitInfo::from_raw` live in the
newer `geom.rs` that is absent from the given sources (only their callers in
`scene.rs` and `render.rs` survive).  Per spec §3: the world-space hit
point, an orthonormal basis whose w axis is the shading normal, and the
side flag with `Outside ⇔ ray.dir · outward_normal ≤ 0` (§8); the shading
normal faces against the ray, so it is the outward normal flipped on an
inside hit. -/
structure HitInfo where
  point : Vec3
  basis : OrthoNormalBasis
  side : HitSide

/-- Modelled from the spec: construction of a `HitInfo` from a ray and the
raw geometric record. -/
def HitInfo.from_raw (ray : Ray) (raw : RawHitInfo) : HitInfo :=
  let side : HitSide :=
    if ray.dir.dot raw.outward_normal ≤ 0 then .Outside else .Inside
  let shadingNormal : Vec3 :=
    match side with
    | .Outside => raw.outward_normal
    | .Inside => -raw.outward_normal
  ⟨ray.at raw.t, OrthoNormalBasis.from_w shadingNormal, side⟩

/-- Embeds `world_to_local` on a hit. -/
def HitInfo.world_to_local (h : HitInfo) (p : Vec3) : Vec3 :=
  h.basis.trans_from_canonical p

/-- Embeds `local_to_world` on a hit. -/
def HitInfo.local_to_world (h : HitInfo) (p : Vec3) : Vec3 :=
  h.basis.trans_to_canonical p

/-- Embeds `spawn_local_ray`: a ray from the hit point along the
world-space image of a local direction. -/
def HitInfo.spawn_local_ray (h : HitInfo) (localDir : Vec3) : Ray :=
  ⟨h.point, h.local_to_world localDir⟩

/-- Embeds `SampledLightRadiance` from `light.rs`. -/
structure SampledLightRadiance where
  radiance : SampledRadiance
  t : ℝ

/-- Embeds `EmittedRadiance` from `light.rs`. -/
structure EmittedRadiance where
  color : Vec3
  t : ℝ

/-- A light as the integrator sees it: the three operations of the `Light`
trait with the random generator threaded explicitly. -/
structure LightM where
  sample_incident_at : HitInfo → Rng → Option SampledLightRadiance × Rng
  pdf : HitInfo → Vec3 → ℝ
  emitted : Ray → Option EmittedRadiance

/-- Embeds `Unit3::new_and_get` (normalized vector and its length). -/
def new_and_get (v : Vec3) : Vec3 × ℝ := (v.normalize, v.norm)

/-- Embeds `PointLight` from `light.rs` as a `LightM` record. -/
def pointLight (point color : Vec3) : LightM where
  sample_incident_at := fun hit rng =>
    let dt := new_and_get (point - hit.point)
    (some ⟨SampledRadiance.new_delta (hit.world_to_local dt.1)
      (color.divScalar (dt.2 ^ 2)), dt.2⟩, rng)
  pdf := fun _ _ => 0
  emitted := fun _ => none

/-- Embeds `PrimitiveHit` from `scene.rs`. -/
structure PrimitiveHit where
  geom_hit : HitInfo
  material : MaterialM

/-- Embeds `PrimitiveHit::shading_info`. -/
def PrimitiveHit.shading_info (h : PrimitiveHit) (ray : Ray) : ShadingInfo :=
  ⟨h.geom_hit.side, -(h.geom_hit.world_to_local ray.dir)⟩

/-- Embeds `Scene` from `scene.rs`: an optional BVH root and the lights. -/
structure Scene where
  primitives : Option BvhNode
  lights : List LightM

/-- Embeds `Scene::hit`: traverse the BVH when present and enrich the raw
record into a `HitInfo`. -/
def Scene.hit (sc : Scene) (ray : Ray) (tmaxO : Option ℝ) :
    Option PrimitiveHit :=
  match sc.primitives with
  | none => none
  | some root =>
      match root.hit ray tmaxO with
      | none => none
      | some (prim, raw) => some ⟨HitInfo.from_raw ray raw, prim.material⟩

/-- Embeds `power_weight` from `render.rs` (the power heuristic). -/
def power_weight (f g : ℝ) : ℝ := f ^ 2 / (f ^ 2 + g ^ 2)

/-- Embeds `sample_lighting_from_light` from `render.rs`: the
light-sampling leg of the MIS estimator. -/
def sample_lighting_from_light (light : LightM) (scene : Scene)
    (hit : PrimitiveHit) (shading : ShadingInfo) (rng : Rng) :
    Option Vec3 × Rng :=
  match light.sample_incident_at hit.geom_hit rng with
  | (none, rng') => (none, rng')
  | (some sample, rng') =>
      let shadowRay := hit.geom_hit.spawn_local_ray sample.radiance.dir
      if (scene.hit shadowRay (some (sample.t - EPSILON))).isSome then
        (none, rng')
      else
        let weight : ℝ :=
          match sample.radiance.pdf with
          | .Real pdf => power_weight pdf (hit.material.pdf shading
              sample.radiance.dir)
          | .Delta => 1
        (some (weight • sample.radiance.scaled_color.compMul
          (hit.material.bsdf shading sample.radiance.dir)), rng')

/-- Embeds `sample_lighting_from_object` from `render.rs`: the
BSDF-sampling leg of the MIS estimator. -/
def sample_lighting_from_object (light : LightM) (scene : Scene)
    (hit : PrimitiveHit) (shading : ShadingInfo) (rng : Rng) :
    Option Vec3 × Rng :=
  match hit.material.sample_bsdf shading rng with
  | (none, rng') => (none, rng')
  | (some sample, rng') =>
      match sample.pdf with
      | .Delta => (none, rng')
      | .Real pdf =>
          let shadowRay := hit.geom_hit.spawn_local_ray sample.dir
          match light.emitted shadowRay with
          | none => (none, rng')
          | some emitted =>
              if (scene.hit shadowRay (some (emitted.t - EPSILON))).isSome then
                (none, rng')
              else
                let weight := power_weight pdf (light.pdf hit.geom_hit
                  sample.dir)
                (some (weight • sample.scaled_color.compMul emitted.color),
                  rng')

/-- Embeds `SliceRandom::choose` on the light list: none on an empty list,
otherwise an index below the length drawn from the generator. -/
def chooseLight (lights : List LightM) (rng : Rng) : Option LightM × Rng :=
  match lights with
  | [] => (none, rng)
  | light0 :: restLights =>
      let (u, rng') := rng.next
      let idx := Nat.floor (u * (restLights.length + 1 : ℝ)) %
        (restLights.length + 1)
      (some ((light0 :: restLights).getD idx light0), rng')

/-- Embeds `sample_single_light` from `render.rs`: one uniformly chosen
light, both MIS legs, scaled by the light count. -/
def sample_single_light (scene : Scene) (hit : PrimitiveHit)
    (shading : ShadingInfo) (rng : Rng) : Vec3 × Rng :=
  match chooseLight scene.lights rng with
  | (none, rng') => (0, rng')
  | (some light, rng') =>
      let fromLight := sample_lighting_from_light light scene hit shading rng'
      let fromObject := sample_lighting_from_object light scene hit shading
        fromLight.2
      ((scene.lights.length : ℝ) •
        (fromLight.1.getD 0 + fromObject.1.getD 0), fromObject.2)

/-- Embeds `MIN_RR_DEPTH` from `trace_ray`. -/
def MIN_RR_DEPTH : ℕ := 5

/-- The state carried between iterations of the `trace_ray` loop. -/
structure LoopState where
  ray : Ray
  rng : Rng
  radiance : Vec3
  throughput : Vec3

/-- The outcome of one iteration of the `trace_ray` loop: leave the loop
returning the accumulated radiance, or continue with a new state. -/
inductive StepOutcome where
  | exit (radiance : Vec3)
  | next (st : LoopState)

/-- The direct-lighting phase of one `trace_ray` iteration: skipped for
always-specular materials, otherwise the single-light MIS estimate scaled
by the throughput is added to the radiance. -/
def lightingPhase (scene : Scene) (hit : PrimitiveHit) (shading : ShadingInfo)
    (radiance throughput : Vec3) (rng : Rng) : Vec3 × Rng :=
  if hit.material.is_always_specular then (radiance, rng)
  else
    let s := sample_single_light scene hit shading rng
    (radiance + throughput.compMul s.1, s.2)

/-- One iteration of the `trace_ray` loop from `render.rs`: nearest hit
with no upper bound, direct lighting, BSDF sampling, the Russian-roulette
block guarded by `depth > MIN_RR_DEPTH`, and the respawned ray. -/
def traceStep (scene : Scene) (depth : ℕ) (st : LoopState) : StepOutcome :=
  match scene.hit st.ray none with
  | none => .exit st.radiance
  | some hit =>
      let shading := hit.shading_info st.ray
      let lp := lightingPhase scene hit shading st.radiance st.throughput st.rng
      match hit.material.sample_bsdf shading lp.2 with
      | (none, _) => .exit lp.1
      | (some sample, rng2) =>
          let throughput' := st.throughput.compMul sample.scaled_color
          let nextRay := hit.geom_hit.spawn_local_ray sample.dir
          if depth > MIN_RR_DEPTH then
            let q := throughput'.maxComp
            if q < EPSILON then .exit lp.1
            else if q < 1 then
              let (u, rng3) := rng2.next
              if u > q then .exit lp.1
              else .next ⟨nextRay, rng3, lp.1, throughput'.divScalar q⟩
            else .next ⟨nextRay, rng2, lp.1, throughput'⟩
          else .next ⟨nextRay, rng2, lp.1, throughput'⟩

/-- The `trace_ray` loop: at most `fuel` further iterations, current loop
index `depth`. -/
def traceAux (scene : Scene) : ℕ → ℕ → LoopState → Vec3
  | 0, _, st => st.radiance
  | fuel + 1, depth, st =>
      match traceStep scene depth st with
      | .exit r => r
      | .next st' => traceAux scene fuel (depth + 1) st'

/-- Embeds `trace_ray` from `render.rs`. -/
def trace_ray (scene : Scene) (ray : Ray) (rng : Rng) (maxDepth : ℕ) : Vec3 :=
  traceAux scene maxDepth 0 ⟨ray, rng, 0, Vec3.fromElement 1⟩

/-- The per-pixel sampling loop of `render_to`: sum `spp` path estimates.
The camera is an external collaborator, embedded as an arbitrary function
giving each sample's jittered ray, and each sample's thread-local generator
state is likewise arbitrary. -/
def sumSamples (scene : Scene) (rays : ℕ → Ray) (rngs : ℕ → Rng)
    (maxDepth : ℕ) : ℕ → Vec3
  | 0 => 0
  | n + 1 => sumSamples scene rays rngs maxDepth n +
      trace_ray scene (rays n) (rngs n) maxDepth

/-- Embeds the per-pixel body of `render_to`: the average of
`samples_per_pixel` independent estimates. -/
def renderPixel (scene : Scene) (rays : ℕ → Ray) (rngs : ℕ → Rng)
    (spp maxDepth : ℕ) : Vec3 :=
  (sumSamples scene rays rngs maxDepth spp).divScalar spp

/-- Embeds `render_to` as the contents of the flat pixel buffer: the pixel
at flat index `idx` covers image coordinates `(idx % width, idx / width)`
and holds the averaged estimate.  `cast idx` bundles the camera rays drawn
for that pixel and `rngs idx` its thread-local generator states. -/
def render_to (scene : Scene) (cast : ℕ → ℕ → Ray) (rngs : ℕ → ℕ → Rng)
    (spp maxDepth : ℕ) (idx : ℕ) : Vec3 :=
  renderPixel scene (cast idx) (rngs idx) spp maxDepth

/-! Component lemmas for the vector operations, used throughout. -/

@[simp] theorem Vec3.add_x (a b : Vec3) : (a + b).x = a.x + b.x := rfl

@[simp] theorem Vec3.add_y (a b : Vec3) : (a + b).y = a.y + b.y := rfl

@[simp] theorem Vec3.add_z (a b : Vec3) : (a + b).z = a.z + b.z := rfl

@[simp] theorem Vec3.sub_x (a b : Vec3) : (a - b).x = a.x - b.x := rfl

@[simp] theorem Vec3.sub_y (a b : Vec3) : (a - b).y = a.y - b.y := rfl

@[simp] theorem Vec3.sub_z (a b : Vec3) : (a - b).z = a.z - b.z := rfl

@[simp] theorem Vec3.neg_x (a : Vec3) : (-a).x = -a.x := rfl

@[simp] theorem Vec3.neg_y (a : Vec3) : (-a).y = -a.y := rfl

@[simp] theorem Vec3.neg_z (a : Vec3) : (-a).z = -a.z := rfl

@[simp] theorem Vec3.smul_x (s : ℝ) (a : Vec3) : (s • a).x = s * a.x := rfl

@[simp] theorem Vec3.smul_y (s : ℝ) (a : Vec3) : (s • a).y = s * a.y := rfl

@[simp] theorem Vec3.smul_z (s : ℝ) (a : Vec3) : (s • a).z = s * a.z := rfl

@[simp] theorem Vec3.zero_x : (0 : Vec3).x = 0 := rfl

@[simp] theorem Vec3.zero_y : (0 : Vec3).y = 0 := rfl

@[simp] theorem Vec3.zero_z : (0 : Vec3).z = 0 := rfl

@[simp] theorem Vec3.compMul_x (a b : Vec3) : (a.compMul b).x = a.x * b.x := rfl

@[simp] theorem Vec3.compMul_y (a b : Vec3) : (a.compMul b).y = a.y * b.y := rfl

@[simp] theorem Vec3.compMul_z (a b : Vec3) : (a.compMul b).z = a.z * b.z := rfl

@[simp] theorem Vec3.divScalar_x (a : Vec3) (s : ℝ) :
    (a.divScalar s).x = a.x / s := rfl

@[simp] theorem Vec3.divScalar_y (a : Vec3) (s : ℝ) :
    (a.divScalar s).y = a.y / s := rfl

@[simp] theorem Vec3.divScalar_z (a : Vec3) (s : ℝ) :
    (a.divScalar s).z = a.z / s := rfl

@[simp] theorem Vec3.fromElement_x (s : ℝ) : (Vec3.fromElement s).x = s := rfl

@[simp] theorem Vec3.fromElement_y (s : ℝ) : (Vec3.fromElement s).y = s := rfl

@[simp] theorem Vec3.fromElement_z (s : ℝ) : (Vec3.fromElement s).z = s := rfl

/-- A vector of squared norm 1 is untouched by `Unit3::new_normalize`. -/
theorem Vec3.normalize_of_normSq_one {v : Vec3} (h : v.normSq = 1) :
    v.normalize = v := by
  unfold Vec3.normalize Vec3.norm
  rw [h, Real.sqrt_one]
  cases v
  simp [Vec3.divScalar]

/-- Claim C8: for positive `f` and `g` the power-heuristic weights of the
two sampling strategies sum to one: `power_weight f g + power_weight g f = 1`. -/
theorem claim_C8 (f g : ℝ) (hf : 0 < f) (hg : 0 < g) :
    power_weight f g + power_weight g f = 1 := by
  have hfg : (0:ℝ) < f ^ 2 + g ^ 2 := by positivity
  unfold power_weight
  field_simp
  ring

/-- Witness for claim C8 at `f = 1`, `g = 2`. -/
theorem claim_C8_witness : power_weight 1 2 + power_weight 2 1 = 1 :=
  claim_C8 1 2 (by norm_num) (by norm_num)

/-- Claim C9: whenever a specular material's `sample_specular_scatter`
returns a scatter whose direction has nonzero `cos_theta`, the blanket
`Material::sample_bsdf` yields a `Delta` sample whose `scaled_color` equals
the scatter's attenuation — the division by `cos_theta` in `sample_bsdf`
cancels against the `cos_theta` factor of `scaled_color`. -/
theorem claim_C9
    (smpl : ShadingInfo → Rng → Option SpecularScatter × Rng)
    (shading : ShadingInfo) (rng : Rng) (scatter : SpecularScatter)
    (h : (smpl shading rng).1 = some scatter)
    (hcos : cos_theta scatter.dir ≠ 0) :
    ((specularMaterial smpl).sample_bsdf shading rng).1 =
      some (SampledRadiance.new_delta scatter.dir
        (scatter.attenuation.divScalar (cos_theta scatter.dir))) ∧
    (SampledRadiance.new_delta scatter.dir
        (scatter.attenuation.divScalar (cos_theta scatter.dir))).pdf =
      Pdf.Delta ∧
    (SampledRadiance.new_delta scatter.dir
        (scatter.attenuation.divScalar (cos_theta scatter.dir))).scaled_color =
      scatter.attenuation := by
  refine ⟨?_, rfl, ?_⟩
  · simp only [specularMaterial]
    rcases hsr : smpl shading rng with ⟨fst, snd⟩
    rw [hsr] at h
    simp only at h
    subst h
    rfl
  · have hz : scatter.dir.z ≠ 0 := hcos
    unfold SampledRadiance.scaled_color SampledRadiance.new_delta Pdf.factor
    ext
    · simp [cos_theta]
      rw [mul_comm]
      exact div_mul_cancel₀ _ hz
    · simp [cos_theta]
      rw [mul_comm]
      exact div_mul_cancel₀ _ hz
    · simp [cos_theta]
      rw [mul_comm]
      exact div_mul_cancel₀ _ hz

/-- Witness for claim C9: the mirror material with outgoing `(0,0,1)`;
the reflected direction is `(0,0,1)`, its cosine is 1, and the delta
sample's `scaled_color` is exactly the mirror colour. -/
theorem claim_C9_witness :
    ((specularMaterial (Mirror.sample_specular_scatter (Vec3.fromElement 1))
        ).sample_bsdf ⟨.Outside, ⟨0, 0, 1⟩⟩ ⟨fun _ => 0, 0⟩).1 =
      some (SampledRadiance.new_delta (reflect_z ⟨0, 0, 1⟩)
        ((Vec3.fromElement 1).divScalar (cos_theta (reflect_z ⟨0, 0, 1⟩)))) ∧
    (SampledRadiance.new_delta (reflect_z ⟨0, 0, 1⟩)
        ((Vec3.fromElement 1).divScalar
          (cos_theta (reflect_z ⟨0, 0, 1⟩)))).scaled_color =
      Vec3.fromElement 1 := by
  have h := claim_C9 (Mirror.sample_specular_scatter (Vec3.fromElement 1))
    ⟨.Outside, ⟨0, 0, 1⟩⟩ ⟨fun _ => 0, 0⟩
    ⟨reflect_z ⟨0, 0, 1⟩, Vec3.fromElement 1⟩
    rfl
    (by norm_num [cos_theta, reflect_z])
  exact ⟨h.1, h.2.2⟩

/-- Claim C2 (code bug): `Diffuse::pdf` returns `cos_theta(incoming)` with
no `1/π` factor, contradicting the density `cos_theta·(1/π)` that
`Diffuse::sample_bsdf` itself attaches to the very same direction: with
`outgoing = incoming = (0,0,1)`, `pdf` yields 1 while the sampler (fed
draws that produce that direction) declares density `π⁻¹`, and `1 ≠ π⁻¹`. -/
theorem claim_C2 :
    Diffuse.pdf ⟨HitSide.Outside, ⟨0, 0, 1⟩⟩ ⟨0, 0, 1⟩ = 1 ∧
    ((Diffuse.sample_bsdf (Vec3.fromElement 1) ⟨HitSide.Outside, ⟨0, 0, 1⟩⟩
        ⟨fun _ => 0, 0⟩).1.map fun s => (s.dir, s.pdf)) =
      some ((⟨0, 0, 1⟩ : Vec3), Pdf.Real Real.pi⁻¹) ∧
    (1 : ℝ) ≠ Real.pi⁻¹ := by
  refine ⟨?_, ?_, ?_⟩
  · unfold Diffuse.pdf
    rw [if_pos]
    · rfl
    · show (1:ℝ) * 1 > 0
      norm_num
  · simp [Diffuse.sample_bsdf, cosWeightedHemisphere, Rng.next,
      SampledRadiance.new_real, cos_theta]
  · have h3 : (3:ℝ) < Real.pi := Real.pi_gt_three
    have : Real.pi⁻¹ < 1 := by
      rw [inv_lt_one_iff₀]
      right
      linarith
    linarith

/-- Claim C3 (amended): in the refraction branch of
`Dielectric::sample_specular_scatter` (no total internal reflection, drawn
uniform not below the Schlick reflectance) the returned direction is
`perp + par` with `perp = η·(cos θᵢ·up − outgoing)` and
`par = −√(1 − |perp|²)·up` — the final normalisation is the identity since
that vector is unit — and the attenuation is `(1,1,1)`, not `η²`. -/
theorem claim_C3 (ri : ℝ) (shading : ShadingInfo) (rng : Rng)
    (hri : 0 < ri) (hunit : shading.outgoing.normSq = 1)
    (hTIR : ¬ dielectricEta ri shading.side * shading.sinTheta > 1)
    (hrefl : ¬ rng.stream rng.pos <
      dielectric_reflectance shading.cosTheta (dielectricEta ri shading.side)) :
    (Dielectric.sample_specular_scatter ri shading rng).1 =
      some ⟨dielectricEta ri shading.side •
          (shading.cosTheta • (⟨0, 0, 1⟩ : Vec3) - shading.outgoing) +
          (-Real.sqrt (1 - (dielectricEta ri shading.side •
            (shading.cosTheta • (⟨0, 0, 1⟩ : Vec3) -
              shading.outgoing)).normSq)) • (⟨0, 0, 1⟩ : Vec3),
        Vec3.fromElement 1⟩ := by
  have hetaPos : 0 < dielectricEta ri shading.side := by
    unfold dielectricEta
    cases shading.side <;> positivity
  simp only [Dielectric.sample_specular_scatter, Rng.next]
  rw [if_neg hTIR, if_neg hrefl]
  set eta := dielectricEta ri shading.side with heta
  set o := shading.outgoing with ho
  set P := eta • (shading.cosTheta • (⟨0, 0, 1⟩ : Vec3) - o) with hP
  have hPx : P.x = -(eta * o.x) := by
    rw [hP]
    show eta * (shading.cosTheta * 0 - o.x) = -(eta * o.x)
    ring
  have hPy : P.y = -(eta * o.y) := by
    rw [hP]
    show eta * (shading.cosTheta * 0 - o.y) = -(eta * o.y)
    ring
  have hPz : P.z = 0 := by
    rw [hP]
    show eta * (shading.cosTheta * 1 - o.z) = 0
    have hc : shading.cosTheta = o.z := by
      unfold ShadingInfo.cosTheta cos_theta
      rw [← ho]
    rw [hc]
    ring
  have hPsq : P.normSq = eta ^ 2 * (o.x ^ 2 + o.y ^ 2) := by
    show P.x * P.x + P.y * P.y + P.z * P.z = eta ^ 2 * (o.x ^ 2 + o.y ^ 2)
    rw [hPx, hPy, hPz]
    ring
  have hoz : o.x ^ 2 + o.y ^ 2 = 1 - o.z ^ 2 := by
    unfold Vec3.normSq at hunit
    nlinarith [hunit]
  have hozsq : (0:ℝ) ≤ 1 - o.z ^ 2 := by nlinarith [sq_nonneg o.x, sq_nonneg o.y]
  have hsinSq : shading.sinTheta ^ 2 = 1 - o.z ^ 2 := by
    unfold ShadingInfo.sinTheta sin_theta cos_theta
    rw [← ho, Real.sq_sqrt hozsq]
  have hsinNonneg : 0 ≤ shading.sinTheta := Real.sqrt_nonneg _
  have hTIR' : eta * shading.sinTheta ≤ 1 := not_lt.mp hTIR
  have hA : (0:ℝ) ≤ 1 - P.normSq := by
    rw [hPsq, hoz]
    nlinarith [mul_nonneg hetaPos.le hsinNonneg, hsinSq, hTIR']
  have hsq2 : Real.sqrt (1 - P.normSq) ^ 2 = 1 - P.normSq := Real.sq_sqrt hA
  have hsum : (P + (-Real.sqrt (1 - P.normSq)) • (⟨0, 0, 1⟩ : Vec3)).normSq
      = 1 := by
    have hax : (P + (-Real.sqrt (1 - P.normSq)) • (⟨0, 0, 1⟩ : Vec3)).x
        = P.x := by simp
    have hay : (P + (-Real.sqrt (1 - P.normSq)) • (⟨0, 0, 1⟩ : Vec3)).y
        = P.y := by simp
    have haz : (P + (-Real.sqrt (1 - P.normSq)) • (⟨0, 0, 1⟩ : Vec3)).z
        = -Real.sqrt (1 - P.normSq) := by simp [hPz]
    show _ * _ + _ * _ + _ * _ = (1:ℝ)
    rw [hax, hay, haz, hPx, hPy]
    linear_combination hsq2 - hPsq - eta ^ 2 * hoz + eta ^ 2 * hoz
  rw [Vec3.normalize_of_normSq_one hsum]

/-- Witness for claim C3 at `refractive_index = 2`, outgoing `(0,0,1)`,
uniform draw `1/2`: straight-through refraction `(0,0,-1)` with attenuation
`(1,1,1)`. -/
theorem claim_C3_witness :
    (Dielectric.sample_specular_scatter 2 ⟨.Outside, ⟨0, 0, 1⟩⟩
      ⟨fun _ => (1:ℝ)/2, 0⟩).1 = some ⟨⟨0, 0, -1⟩, Vec3.fromElement 1⟩ := by
  rw [claim_C3 2 ⟨.Outside, ⟨0, 0, 1⟩⟩ ⟨fun _ => (1:ℝ)/2, 0⟩ (by norm_num)
    (by norm_num [Vec3.normSq])
    (by norm_num [dielectricEta, ShadingInfo.sinTheta, sin_theta, cos_theta])
    (by norm_num [dielectric_reflectance, schlick_reflectance, dielectricEta,
      ShadingInfo.cosTheta, cos_theta])]
  norm_num [dielectricEta, ShadingInfo.cosTheta, cos_theta, Vec3.normSq,
    Vec3.ext_iff]

/-- Counterexample for claim C3 as stated: at `refractive_index = 3`
(outside hit, so `η = 1/3`), outgoing `(0,0,1)` and uniform draw `1/2`, the
refraction branch runs and returns attenuation `(1,1,1)`, which differs
from the claimed `η² = 1/9` scaling. -/
theorem claim_C3_cx :
    (Dielectric.sample_specular_scatter 3 ⟨.Outside, ⟨0, 0, 1⟩⟩
      ⟨fun _ => (1:ℝ)/2, 0⟩).1 = some ⟨⟨0, 0, -1⟩, Vec3.fromElement 1⟩ ∧
    Vec3.fromElement 1 ≠
      dielectricEta 3 HitSide.Outside ^ 2 • Vec3.fromElement 1 := by
  constructor
  · simp only [Dielectric.sample_specular_scatter, Rng.next]
    rw [if_neg (by norm_num [dielectricEta, ShadingInfo.sinTheta, sin_theta,
      cos_theta]),
      if_neg (by norm_num [dielectric_reflectance, schlick_reflectance,
        dielectricEta, ShadingInfo.cosTheta, cos_theta])]
    norm_num [dielectricEta, ShadingInfo.cosTheta, cos_theta, Vec3.normSq,
      Vec3.normalize, Vec3.norm, Vec3.ext_iff]
  · intro h
    have hx := congrArg Vec3.x h
    simp [dielectricEta] at hx
    norm_num at hx

/-- The squared distance from the sphere centre after time `t` expands to
the hit quadratic, for a unit direction. -/
theorem sphere_quadratic (s : Sphere) (ray : Ray) (t : ℝ)
    (hunit : ray.dir.normSq = 1) :
    (ray.at t - s.center).normSq =
      t ^ 2 + 2 * ((ray.origin - s.center).dot ray.dir) * t +
        (ray.origin - s.center).normSq := by
  unfold Vec3.normSq at hunit ⊢
  unfold Ray.at Vec3.dot
  simp only [Vec3.add_x, Vec3.add_y, Vec3.add_z, Vec3.sub_x, Vec3.sub_y,
    Vec3.sub_z, Vec3.smul_x, Vec3.smul_y, Vec3.smul_z]
  linear_combination (t ^ 2) * hunit

/-- A real whose square is `c` is `±√c`. -/
theorem sq_eq_sqrt_or (a c : ℝ) (h : a ^ 2 = c) :
    a = Real.sqrt c ∨ a = -Real.sqrt c := by
  have hc : 0 ≤ c := h ▸ sq_nonneg a
  rcases le_or_lt 0 a with ha | ha
  · left
    rw [← h, Real.sqrt_sq ha]
  · right
    have hs : Real.sqrt c = -a := by
      rw [← h, show a ^ 2 = (-a) ^ 2 by ring, Real.sqrt_sq (by linarith)]
    rw [hs, neg_neg]

/-- Claim C4 (amended): `Sphere::hit` in `src/geom.rs` takes no `t_max` and
returns only the parameter: for a unit direction it yields the smallest
`t` strictly greater than `EPSILON` at which the ray meets the sphere
surface (trying `−b−√disc` before `−b+√disc`), and `none` exactly when no
surface point lies strictly beyond `EPSILON`; no hit record or outward
normal is part of the return value. -/
theorem claim_C4 (s : Sphere) (ray : Ray) (hunit : ray.dir.normSq = 1) :
    (∀ t, s.hit ray = some t →
      EPSILON < t ∧
      (ray.at t - s.center).normSq = s.radius * s.radius ∧
      ∀ u, EPSILON < u →
        (ray.at u - s.center).normSq = s.radius * s.radius → t ≤ u) ∧
    (s.hit ray = none →
      ∀ u, EPSILON < u →
        (ray.at u - s.center).normSq ≠ s.radius * s.radius) := by
  have hb : ∀ u : ℝ, (ray.at u - s.center).normSq = s.radius * s.radius ↔
      (u + (ray.origin - s.center).dot ray.dir) ^ 2 =
        ((ray.origin - s.center).dot ray.dir) *
          ((ray.origin - s.center).dot ray.dir) -
        ((ray.origin - s.center).normSq - s.radius * s.radius) := by
    intro u
    rw [sphere_quadratic s ray u hunit]
    constructor
    · intro h
      linear_combination h
    · intro h
      linear_combination h
  simp only [Sphere.hit]
  set b := (ray.origin - s.center).dot ray.dir with hbdef
  set cc := (ray.origin - s.center).normSq - s.radius * s.radius with hccdef
  by_cases hd : b * b - cc < 0
  · rw [if_pos hd]
    refine ⟨fun t ht => (by cases ht), fun _ u _ hu => ?_⟩
    have h2 := (hb u).mp hu
    nlinarith [sq_nonneg (u + b)]
  · rw [if_neg hd]
    have hd' : 0 ≤ b * b - cc := not_lt.mp hd
    have hroots : ∀ u : ℝ,
        (ray.at u - s.center).normSq = s.radius * s.radius ↔
        (u = -b - Real.sqrt (b * b - cc) ∨
          u = -b + Real.sqrt (b * b - cc)) := by
      intro u
      rw [hb u]
      constructor
      · intro h
        rcases sq_eq_sqrt_or _ _ h with h' | h'
        · right
          linarith
        · left
          linarith
      · intro h
        rcases h with h' | h'
        · subst h'
          rw [show -b - Real.sqrt (b * b - cc) + b = -Real.sqrt (b * b - cc)
              by ring]
          rw [neg_pow, Real.sq_sqrt hd']
          ring
        · subst h'
          rw [show -b + Real.sqrt (b * b - cc) + b = Real.sqrt (b * b - cc)
              by ring]
          rw [Real.sq_sqrt hd']
    have hle : -b - Real.sqrt (b * b - cc) ≤ -b + Real.sqrt (b * b - cc) := by
      have hnn := Real.sqrt_nonneg (b * b - cc)
      linarith
    by_cases h1 : -b - Real.sqrt (b * b - cc) > EPSILON
    · rw [if_pos h1]
      refine ⟨fun t ht => ?_, fun h => (by cases h)⟩
      obtain rfl : -b - Real.sqrt (b * b - cc) = t := by
        cases ht
        rfl
      refine ⟨h1, (hroots _).mpr (Or.inl rfl), fun u huε hu => ?_⟩
      rcases (hroots u).mp hu with h' | h' <;> subst h' <;> linarith
    · rw [if_neg h1]
      by_cases h2 : -b + Real.sqrt (b * b - cc) > EPSILON
      · rw [if_pos h2]
        refine ⟨fun t ht => ?_, fun h => (by cases h)⟩
        obtain rfl : -b + Real.sqrt (b * b - cc) = t := by
          cases ht
          rfl
        refine ⟨h2, (hroots _).mpr (Or.inr rfl), fun u huε hu => ?_⟩
        rcases (hroots u).mp hu with h' | h' <;> subst h' <;> linarith
      · rw [if_neg h2]
        refine ⟨fun t ht => (by cases ht), fun _ u huε hu => ?_⟩
        rcases (hroots u).mp hu with h' | h' <;> subst h' <;> linarith

/-- Witness for claim C4: the unit sphere at `(0,0,-5)` seen from the
origin along `(0,0,-1)` is hit at `t = 4`, which lies on the surface and
beyond `EPSILON`. -/
theorem claim_C4_witness :
    EPSILON < (4:ℝ) ∧
    ((⟨⟨0, 0, 0⟩, ⟨0, 0, -1⟩⟩ : Ray).at 4 -
      (⟨0, 0, -5⟩ : Vec3)).normSq = 1 * 1 := by
  have heval : Sphere.hit ⟨⟨0, 0, -5⟩, 1⟩ ⟨⟨0, 0, 0⟩, ⟨0, 0, -1⟩⟩ =
      some 4 := by
    unfold Sphere.hit
    rw [if_neg (by norm_num [Vec3.dot, Vec3.normSq]),
      if_pos (by norm_num [Vec3.dot, Vec3.normSq, EPSILON, Real.sqrt_one])]
    norm_num [Vec3.dot, Vec3.normSq, Real.sqrt_one]
  have h := (claim_C4 ⟨⟨0, 0, -5⟩, 1⟩ ⟨⟨0, 0, 0⟩, ⟨0, 0, -1⟩⟩
    (by norm_num [Vec3.normSq])).1 4 heval
  exact ⟨h.1, h.2.1⟩

/-- Counterexample for claim C4 as stated: `Sphere::hit` accepts no
`t_max`; for the unit sphere at `(0,0,-5)` seen from the origin it returns
`some 4` even though with `t_max = 1` no root lies in `[EPSILON, 1)` and
the claim demands `none` (the spec-faithful bounded intersection
`Sphere.hitT` indeed returns `none` there). -/
theorem claim_C4_cx :
    Sphere.hit ⟨⟨0, 0, -5⟩, 1⟩ ⟨⟨0, 0, 0⟩, ⟨0, 0, -1⟩⟩ = some 4 ∧
    ¬((4:ℝ) < 1) ∧
    Sphere.hitT ⟨⟨0, 0, -5⟩, 1⟩ ⟨⟨0, 0, 0⟩, ⟨0, 0, -1⟩⟩ (some 1) = none := by
  refine ⟨?_, by norm_num, ?_⟩
  · unfold Sphere.hit
    rw [if_neg (by norm_num [Vec3.dot, Vec3.normSq]),
      if_pos (by norm_num [Vec3.dot, Vec3.normSq, EPSILON, Real.sqrt_one])]
    norm_num [Vec3.dot, Vec3.normSq, Real.sqrt_one]
  · unfold Sphere.hitT
    rw [if_neg (by norm_num [Vec3.dot, Vec3.normSq])]
    rw [if_neg, if_neg] <;>
      norm_num [Vec3.dot, Vec3.normSq, EPSILON, Real.sqrt_one, oLT]

/-- Claim C6: the light-sampling MIS leg returns none exactly when the
light declines to sample or the shadow ray `scene.hit(shadow, t − EPSILON)`
is occluded, and otherwise contributes the MIS weight (1 for a `Delta`
light sample, `power2(light_pdf, material_pdf)` for a `Real` one) times the
sample's `scaled_color` componentwise-multiplied by the material BSDF. -/
theorem claim_C6 (light : LightM) (scene : Scene) (hit : PrimitiveHit)
    (shading : ShadingInfo) (rng : Rng) :
    ((sample_lighting_from_light light scene hit shading rng).1 = none ↔
      (light.sample_incident_at hit.geom_hit rng).1 = none ∨
      ∃ sample, (light.sample_incident_at hit.geom_hit rng).1 = some sample ∧
        (scene.hit (hit.geom_hit.spawn_local_ray sample.radiance.dir)
          (some (sample.t - EPSILON))).isSome) ∧
    (∀ sample, (light.sample_incident_at hit.geom_hit rng).1 = some sample →
      ¬(scene.hit (hit.geom_hit.spawn_local_ray sample.radiance.dir)
          (some (sample.t - EPSILON))).isSome →
      (sample_lighting_from_light light scene hit shading rng).1 =
        some ((match sample.radiance.pdf with
            | .Real pdf =>
                power_weight pdf (hit.material.pdf shading sample.radiance.dir)
            | .Delta => 1) •
          sample.radiance.scaled_color.compMul
            (hit.material.bsdf shading sample.radiance.dir))) := by
  rcases hls : light.sample_incident_at hit.geom_hit rng with ⟨lsOpt, rng'⟩
  unfold sample_lighting_from_light
  rw [hls]
  cases lsOpt with
  | none => simp
  | some sample =>
      dsimp only
      by_cases hocc : (scene.hit (hit.geom_hit.spawn_local_ray
          sample.radiance.dir) (some (sample.t - EPSILON))).isSome
      · rw [if_pos hocc]
        refine ⟨⟨fun _ => Or.inr ⟨sample, rfl, hocc⟩, fun _ => rfl⟩,
          fun sample' hs' hocc' => ?_⟩
        obtain rfl : sample = sample' := Option.some.inj hs'
        exact absurd hocc hocc'
      · rw [if_neg hocc]
        constructor
        · simp [hocc]
        · intro sample' hs' _
          obtain rfl : sample = sample' := Option.some.inj hs'
          rfl

/-- Witness for claim C6: a point light at `(0,0,2)` above a hit at the
origin in an empty (hence unoccluded) scene contributes, and its `Delta`
sample gets MIS weight 1. -/
theorem claim_C6_witness :
    (sample_lighting_from_light (pointLight ⟨0, 0, 2⟩ ⟨1, 1, 1⟩) ⟨none, []⟩
        ⟨⟨⟨0, 0, 0⟩, ⟨⟨1, 0, 0⟩, ⟨0, 1, 0⟩, ⟨0, 0, 1⟩⟩, .Outside⟩,
          diffuseMaterial (Vec3.fromElement 1)⟩
        ⟨.Outside, ⟨0, 0, 1⟩⟩ ⟨fun _ => 0, 0⟩).1 =
      some ((1:ℝ) •
        (SampledRadiance.new_delta ⟨0, 0, 1⟩
            ⟨1/4, 1/4, 1/4⟩).scaled_color.compMul
          ((diffuseMaterial (Vec3.fromElement 1)).bsdf
            ⟨.Outside, ⟨0, 0, 1⟩⟩ ⟨0, 0, 1⟩)) := by
  have h4 : Real.sqrt 4 = 2 := by
    rw [show (4:ℝ) = 2 ^ 2 by norm_num, Real.sqrt_sq (by norm_num)]
  have hsample : ((pointLight ⟨0, 0, 2⟩ ⟨1, 1, 1⟩).sample_incident_at
      ⟨⟨0, 0, 0⟩, ⟨⟨1, 0, 0⟩, ⟨0, 1, 0⟩, ⟨0, 0, 1⟩⟩, .Outside⟩
      ⟨fun _ => 0, 0⟩).1 =
      some ⟨SampledRadiance.new_delta ⟨0, 0, 1⟩ ⟨1/4, 1/4, 1/4⟩, 2⟩ := by
    simp [pointLight, new_and_get, Vec3.normalize, Vec3.norm, Vec3.normSq,
      HitInfo.world_to_local, OrthoNormalBasis.trans_from_canonical, Vec3.dot,
      SampledRadiance.new_delta, Vec3.divScalar]
    norm_num [h4, Vec3.ext_iff]
  exact (claim_C6 (pointLight ⟨0, 0, 2⟩ ⟨1, 1, 1⟩) ⟨none, []⟩
      ⟨⟨⟨0, 0, 0⟩, ⟨⟨1, 0, 0⟩, ⟨0, 1, 0⟩, ⟨0, 0, 1⟩⟩, .Outside⟩,
        diffuseMaterial (Vec3.fromElement 1)⟩
      ⟨.Outside, ⟨0, 0, 1⟩⟩ ⟨fun _ => 0, 0⟩).2
    ⟨SampledRadiance.new_delta ⟨0, 0, 1⟩ ⟨1/4, 1/4, 1/4⟩, 2⟩ hsample
    (by simp [Scene.hit])

/-- Claim C7: at loop depth at most `MIN_RR_DEPTH = 5` the Russian-roulette
block of `trace_ray` is inert: the iteration leaves the loop only on a
missed scene hit or a declined BSDF sample, and otherwise continues with
the throughput multiplied by the sample's `scaled_color`, the generator
exactly as the BSDF sampler left it (no roulette draw), and no division by
the survival probability. -/
theorem claim_C7 (scene : Scene) (depth : ℕ) (st : LoopState)
    (h : depth ≤ MIN_RR_DEPTH) :
    (scene.hit st.ray none = none ∧
      traceStep scene depth st = .exit st.radiance) ∨
    (∃ hit, scene.hit st.ray none = some hit ∧
      (hit.material.sample_bsdf (hit.shading_info st.ray)
        (lightingPhase scene hit (hit.shading_info st.ray) st.radiance
          st.throughput st.rng).2).1 = none ∧
      traceStep scene depth st = .exit
        (lightingPhase scene hit (hit.shading_info st.ray) st.radiance
          st.throughput st.rng).1) ∨
    (∃ hit sample rng2, scene.hit st.ray none = some hit ∧
      hit.material.sample_bsdf (hit.shading_info st.ray)
        (lightingPhase scene hit (hit.shading_info st.ray) st.radiance
          st.throughput st.rng).2 = (some sample, rng2) ∧
      traceStep scene depth st = .next
        ⟨hit.geom_hit.spawn_local_ray sample.dir, rng2,
          (lightingPhase scene hit (hit.shading_info st.ray) st.radiance
            st.throughput st.rng).1,
          st.throughput.compMul sample.scaled_color⟩) := by
  unfold traceStep
  cases hh : scene.hit st.ray none with
  | none => exact Or.inl ⟨rfl, rfl⟩
  | some hit =>
      rcases hsb : hit.material.sample_bsdf (hit.shading_info st.ray)
          (lightingPhase scene hit (hit.shading_info st.ray) st.radiance
            st.throughput st.rng).2 with ⟨sOpt, rng2⟩
      cases sOpt with
      | none =>
          refine Or.inr (Or.inl ⟨hit, rfl, by rw [hsb], ?_⟩)
          simp only [hsb]
      | some sample =>
          refine Or.inr (Or.inr ⟨hit, sample, rng2, rfl, hsb, ?_⟩)
          simp only [hsb]
          rw [if_neg (by omega)]

/-- Witness for claim C7 at depth 0 in a scene with no BVH: the only
possible outcome is the missed-hit exit. -/
theorem claim_C7_witness :
    traceStep ⟨none, []⟩ 0
      ⟨⟨⟨0, 0, 0⟩, ⟨0, 0, 1⟩⟩, ⟨fun _ => 0, 0⟩, 0, Vec3.fromElement 1⟩ =
      .exit 0 := by
  rcases claim_C7 ⟨none, []⟩ 0
      ⟨⟨⟨0, 0, 0⟩, ⟨0, 0, 1⟩⟩, ⟨fun _ => 0, 0⟩, 0, Vec3.fromElement 1⟩
      (by norm_num [MIN_RR_DEPTH]) with ⟨_, hstep⟩ | ⟨hit, hh, _⟩ |
      ⟨hit, _, _, hh, _⟩
  · exact hstep
  · simp [Scene.hit] at hh
  · simp [Scene.hit] at hh

/-- In a scene with no BVH root every trace loop returns the radiance it
entered with. -/
theorem traceAux_no_primitives (lights : List LightM) (fuel depth : ℕ)
    (st : LoopState) :
    traceAux ⟨none, lights⟩ fuel depth st = st.radiance := by
  cases fuel with
  | zero => rfl
  | succ n => rfl

/-- In a scene with no BVH root the per-pixel sample sum is zero. -/
theorem sumSamples_no_primitives (lights : List LightM) (rays : ℕ → Ray)
    (rngs : ℕ → Rng) (maxDepth n : ℕ) :
    sumSamples ⟨none, lights⟩ rays rngs maxDepth n = 0 := by
  induction n with
  | zero => rfl
  | succ n ih =>
      unfold sumSamples
      rw [ih]
      show (0 : Vec3) + traceAux _ _ _ _ = 0
      rw [traceAux_no_primitives]
      ext <;> simp

/-- Claim C5: building from no primitives yields no BVH, `trace_ray` then
returns `(0,0,0)` for every ray, generator and depth cap (no background
radiance is injected), and `render_to` consequently fills every pixel of
the buffer with `(0,0,0)` for any positive sample count. -/
theorem claim_C5 (lights : List LightM) (ray : Ray) (rng : Rng)
    (maxDepth : ℕ) (cast : ℕ → ℕ → Ray) (rngs : ℕ → ℕ → Rng) (spp idx : ℕ)
    (hspp : 0 < spp) :
    build [] = none ∧
    trace_ray ⟨none, lights⟩ ray rng maxDepth = 0 ∧
    render_to ⟨none, lights⟩ cast rngs spp maxDepth idx = 0 := by
  refine ⟨by simp [build, do_build], ?_, ?_⟩
  · unfold trace_ray
    rw [traceAux_no_primitives]
  · unfold render_to renderPixel
    rw [sumSamples_no_primitives]
    ext <;> simp

/-- Witness for claim C5 with one pixel, one sample, depth 10. -/
theorem claim_C5_witness :
    build [] = none ∧
    trace_ray ⟨none, []⟩ ⟨⟨0, 0, 0⟩, ⟨0, 0, 1⟩⟩ ⟨fun _ => 0, 0⟩ 10 = 0 ∧
    render_to ⟨none, []⟩ (fun _ _ => ⟨⟨0, 0, 0⟩, ⟨0, 0, 1⟩⟩)
      (fun _ _ => ⟨fun _ => 0, 0⟩) 1 10 0 = 0 :=
  claim_C5 [] ⟨⟨0, 0, 0⟩, ⟨0, 0, 1⟩⟩ ⟨fun _ => 0, 0⟩ 10
    (fun _ _ => ⟨⟨0, 0, 0⟩, ⟨0, 0, 1⟩⟩) (fun _ _ => ⟨fun _ => 0, 0⟩) 1 0
    (by norm_num)

/-! Lemmas about `Aabb::union` and box containment, leading to the BVH
bounds invariant. -/

@[simp] theorem Vec3.inf_x (a b : Vec3) : (a.inf b).x = min a.x b.x := rfl

@[simp] theorem Vec3.inf_y (a b : Vec3) : (a.inf b).y = min a.y b.y := rfl

@[simp] theorem Vec3.inf_z (a b : Vec3) : (a.inf b).z = min a.z b.z := rfl

@[simp] theorem Vec3.sup_x (a b : Vec3) : (a.sup b).x = max a.x b.x := rfl

@[simp] theorem Vec3.sup_y (a b : Vec3) : (a.sup b).y = max a.y b.y := rfl

@[simp] theorem Vec3.sup_z (a b : Vec3) : (a.sup b).z = max a.z b.z := rfl

theorem Aabb.union_comm (a b : Aabb) : a.union b = b.union a := by
  unfold Aabb.union
  ext <;> simp [min_comm, max_comm]

theorem Aabb.union_assoc (a b c : Aabb) :
    (a.union b).union c = a.union (b.union c) := by
  unfold Aabb.union
  ext <;> simp [min_assoc, max_assoc]

theorem subBox_refl (a : Aabb) : subBox a a := by
  unfold subBox
  exact ⟨le_refl _, le_refl _, le_refl _, le_refl _, le_refl _, le_refl _⟩

theorem subBox_trans {a b c : Aabb} (h1 : subBox a b) (h2 : subBox b c) :
    subBox a c := by
  obtain ⟨p1, p2, p3, p4, p5, p6⟩ := h1
  obtain ⟨q1, q2, q3, q4, q5, q6⟩ := h2
  exact ⟨le_trans q1 p1, le_trans q2 p2, le_trans q3 p3,
    le_trans p4 q4, le_trans p5 q5, le_trans p6 q6⟩

theorem subBox_union_left (a b : Aabb) : subBox a (a.union b) := by
  unfold subBox Aabb.union
  refine ⟨?_, ?_, ?_, ?_, ?_, ?_⟩ <;> simp

theorem subBox_union_right (a b : Aabb) : subBox b (a.union b) := by
  unfold subBox Aabb.union
  refine ⟨?_, ?_, ?_, ?_, ?_, ?_⟩ <;> simp

theorem subBox_unionFold {x : Aabb} (y : Aabb) (l : List Aabb)
    (h : subBox x y) : subBox x (unionFold y l) := by
  induction l generalizing y with
  | nil => exact h
  | cons a l ih =>
      show subBox x (unionFold (y.union a) l)
      exact ih (y.union a) (subBox_trans h (subBox_union_left y a))

theorem mem_subBox_unionFold (b y : Aabb) (l : List Aabb) (h : b ∈ l) :
    subBox b (unionFold y l) := by
  induction l generalizing y with
  | nil => cases h
  | cons a l ih =>
      show subBox b (unionFold (y.union a) l)
      rcases List.mem_cons.mp h with rfl | h'
      · exact subBox_unionFold _ _ (subBox_union_right y b)
      · exact ih _ h'

theorem ulist_subBox {l : List Aabb} {U : Aabb} (h : ulist l = some U)
    {b : Aabb} (hb : b ∈ l) : subBox b U := by
  cases l with
  | nil => cases hb
  | cons c rest =>
      obtain rfl : unionFold c rest = U := by simpa [ulist] using h
      rcases List.mem_cons.mp hb with rfl | hb'
      · exact subBox_unionFold _ _ (subBox_refl b)
      · exact mem_subBox_unionFold _ _ _ hb'

theorem unionFold_perm {l1 l2 : List Aabb} (h : l1.Perm l2) (b : Aabb) :
    unionFold b l1 = unionFold b l2 := by
  induction h generalizing b with
  | nil => rfl
  | cons x h ih =>
      show unionFold (b.union x) _ = unionFold (b.union x) _
      exact ih _
  | swap x y l =>
      show unionFold ((b.union y).union x) l = unionFold ((b.union x).union y) l
      rw [Aabb.union_assoc, Aabb.union_assoc, Aabb.union_comm y x]
  | trans _ _ ih1 ih2 => exact (ih1 b).trans (ih2 b)

theorem ulist_perm {l1 l2 : List Aabb} (h : l1.Perm l2) :
    ulist l1 = ulist l2 := by
  induction h with
  | nil => rfl
  | cons x h ih =>
      simp only [ulist]
      rw [unionFold_perm h]
  | swap x y l =>
      simp only [ulist]
      show some (unionFold (y.union x) l) = some (unionFold (x.union y) l)
      rw [Aabb.union_comm y x]
  | trans _ _ ih1 ih2 => rw [ih1, ih2]

/-- The head-and-map form of the `do_build` bounds fold. -/
theorem ulist_map_bounds (tp0 : TaggedPrimitive)
    (rest : List TaggedPrimitive) :
    ulist ((tp0 :: rest).map (fun tp => tp.bounds)) =
      some (boundsOf tp0 rest) := by
  simp only [ulist, List.map_cons]
  congr 1
  unfold unionFold boundsOf
  rw [List.foldl_map]

/-- Every tree `do_build` produces is a permutation of its input
primitives and satisfies the cached-bounds invariant. -/
theorem do_build_wf : ∀ (N : ℕ) (l : List TaggedPrimitive), l.length ≤ N →
    (∀ tp ∈ l, tp.bounds = tp.prim.geom.aabb) →
    ∀ node, do_build l = some node →
      node.subtreePrims.Perm (l.map (fun tp => tp.prim)) ∧ node.wf := by
  intro N
  induction N with
  | zero =>
      intro l hlen _ node hbuild
      obtain rfl : l = [] := List.length_eq_zero.mp (Nat.le_zero.mp hlen)
      simp [do_build] at hbuild
  | succ N ih =>
      intro l hlen hb node hbuild
      match l with
      | [] => simp [do_build] at hbuild
      | [tp] =>
          obtain rfl : BvhNode.leaf tp.bounds tp.prim = node := by
            simpa [do_build] using hbuild
          refine ⟨by simp [BvhNode.subtreePrims], ?_⟩
          show tp.bounds = tp.prim.geom.aabb
          exact hb tp (by simp)
      | tp0 :: tp1 :: rest =>
          simp only [do_build] at hbuild
          generalize hG : (tp0 :: tp1 :: rest).mergeSort
            (sortKey (splitAxis tp0 (tp1 :: rest))) = sorted at hbuild
          have hperm : sorted.Perm (tp0 :: tp1 :: rest) :=
            hG ▸ List.mergeSort_perm _ _
          have hslen : sorted.length = rest.length + 2 := by
            rw [hperm.length_eq]
            simp
          have hl2 : (tp0 :: tp1 :: rest).length = rest.length + 2 := by simp
          rw [hl2] at hbuild
          cases hL : do_build (sorted.take ((rest.length + 2) / 2)) with
          | none =>
              rw [hL] at hbuild
              cases hR : do_build (sorted.drop ((rest.length + 2) / 2)) with
              | none =>
                  rw [hR] at hbuild
                  simp at hbuild
              | some rt =>
                  rw [hR] at hbuild
                  simp at hbuild
          | some lt =>
              rw [hL] at hbuild
              cases hR : do_build (sorted.drop ((rest.length + 2) / 2)) with
              | none =>
                  rw [hR] at hbuild
                  simp at hbuild
              | some rt =>
                  rw [hR] at hbuild
                  simp only [Option.some.injEq] at hbuild
                  subst hbuild
                  have hbL : ∀ tp ∈ sorted.take ((rest.length + 2) / 2),
                      tp.bounds = tp.prim.geom.aabb := fun tp htp =>
                    hb tp (hperm.subset (List.take_subset _ _ htp))
                  have hbR : ∀ tp ∈ sorted.drop ((rest.length + 2) / 2),
                      tp.bounds = tp.prim.geom.aabb := fun tp htp =>
                    hb tp (hperm.subset (List.drop_subset _ _ htp))
                  have hlenL : (sorted.take ((rest.length + 2) / 2)).length
                      ≤ N := by
                    rw [List.length_take, hslen]
                    omega
                  have hlenR : (sorted.drop ((rest.length + 2) / 2)).length
                      ≤ N := by
                    rw [List.length_drop, hslen]
                    omega
                  obtain ⟨hpermL, hwfL⟩ := ih _ hlenL hbL lt hL
                  obtain ⟨hpermR, hwfR⟩ := ih _ hlenR hbR rt hR
                  have hsub : (BvhNode.interior (boundsOf tp0 (tp1 :: rest))
                      lt rt).subtreePrims.Perm
                      ((tp0 :: tp1 :: rest).map (fun tp => tp.prim)) := by
                    show (lt.subtreePrims ++ rt.subtreePrims).Perm _
                    have happ := hpermL.append hpermR
                    rw [← List.map_append, List.take_append_drop] at happ
                    exact happ.trans (hperm.map _)
                  refine ⟨hsub, ?_, hwfL, hwfR⟩
                  show some (boundsOf tp0 (tp1 :: rest)) = _
                  rw [ulist_perm (hsub.map (fun p => p.geom.aabb))]
                  rw [List.map_map]
                  have hmap : (tp0 :: tp1 :: rest).map
                      ((fun p => p.geom.aabb) ∘ fun tp => tp.prim) =
                      (tp0 :: tp1 :: rest).map (fun tp => tp.bounds) := by
                    apply List.map_congr_left
                    intro a ha
                    exact (hb a ha).symm
                  rw [hmap, ulist_map_bounds]

/-- Well-formedness descends to every node of the tree. -/
theorem wf_mem_allNodes : ∀ {n m : BvhNode}, n.wf → m ∈ n.allNodes → m.wf := by
  intro n
  induction n with
  | leaf b p =>
      intro m hwf hm
      obtain rfl : m = BvhNode.leaf b p := by simpa [BvhNode.allNodes] using hm
      exact hwf
  | interior b l r ihl ihr =>
      intro m hwf hm
      obtain ⟨hb, hl, hr⟩ := hwf
      rcases (by simpa [BvhNode.allNodes] using hm :
          m = BvhNode.interior b l r ∨ m ∈ l.allNodes ∨ m ∈ r.allNodes) with
        rfl | h | h
      · exact ⟨hb, hl, hr⟩
      · exact ihl hl h
      · exact ihr hr h

/-- In a well-formed node the cached bounds contain the box of every
primitive of the subtree. -/
theorem wf_subBox : ∀ {n : BvhNode}, n.wf → ∀ {p : Primitive},
    p ∈ n.subtreePrims → subBox p.geom.aabb n.bounds := by
  intro n hwf p hp
  cases n with
  | leaf b q =>
      obtain rfl : p = q := by simpa [BvhNode.subtreePrims] using hp
      show subBox p.geom.aabb b
      rw [show b = p.geom.aabb from hwf]
      exact subBox_refl _
  | interior b l r =>
      obtain ⟨hb, _, _⟩ := hwf
      exact ulist_subBox hb.symm (List.mem_map_of_mem _ hp)

/-- Claim C10: a BVH built from a non-empty primitive list stores those
primitives (as a permutation) and, at every node of the tree, the cached
bounds are exactly the single primitive's box at a leaf and the union of
the subtree's boxes at an interior node; hence every node's bounds contain
the box of every primitive below it. -/
theorem claim_C10 (ps : List Primitive) (root : BvhNode)
    (hbuild : build ps = some root) :
    root.subtreePrims.Perm ps ∧
    ∀ node ∈ root.allNodes,
      (∀ b p, node = .leaf b p → b = p.geom.aabb) ∧
      (∀ b l r, node = .interior b l r →
        some b = ulist (node.subtreePrims.map (fun p => p.geom.aabb))) ∧
      ∀ p ∈ node.subtreePrims, subBox p.geom.aabb node.bounds := by
  obtain ⟨hperm, hwf⟩ := do_build_wf (ps.map tagPrimitive).length _ (le_refl _)
    (by intro tp htp
        obtain ⟨p, _, rfl⟩ := List.mem_map.mp htp
        rfl)
    root hbuild
  constructor
  · have hid : (ps.map tagPrimitive).map (fun tp => tp.prim) = ps := by
      rw [List.map_map]
      show ps.map (fun p => p) = ps
      simp
    rwa [hid] at hperm
  · intro node hnode
    have hwfn := wf_mem_allNodes hwf hnode
    refine ⟨?_, ?_, fun p hp => wf_subBox hwfn hp⟩
    · intro b p hnb
      subst hnb
      exact hwfn
    · intro b l r hnb
      subst hnb
      exact hwfn.1

/-- Witness for claim C10: the BVH built from one unit sphere at the
origin is a leaf whose cached bounds contain (here: equal) the sphere's
box. -/
theorem claim_C10_witness :
    subBox (Sphere.aabb ⟨⟨0, 0, 0⟩, 1⟩)
      (BvhNode.leaf (Sphere.aabb ⟨⟨0, 0, 0⟩, 1⟩)
        ⟨⟨⟨0, 0, 0⟩, 1⟩, diffuseMaterial (Vec3.fromElement 1)⟩).bounds := by
  have hbuild : build
      [(⟨⟨⟨0, 0, 0⟩, 1⟩, diffuseMaterial (Vec3.fromElement 1)⟩ : Primitive)] =
      some (BvhNode.leaf (Sphere.aabb ⟨⟨0, 0, 0⟩, 1⟩)
        ⟨⟨⟨0, 0, 0⟩, 1⟩, diffuseMaterial (Vec3.fromElement 1)⟩) := by
    simp [build, do_build, tagPrimitive]
  have h := (claim_C10 _ _ hbuild).2
    (BvhNode.leaf (Sphere.aabb ⟨⟨0, 0, 0⟩, 1⟩)
      ⟨⟨⟨0, 0, 0⟩, 1⟩, diffuseMaterial (Vec3.fromElement 1)⟩)
    (by simp [BvhNode.allNodes])
  exact h.2.2 ⟨⟨⟨0, 0, 0⟩, 1⟩, diffuseMaterial (Vec3.fromElement 1)⟩
    (by simp [BvhNode.subtreePrims])

/-! Lemmas about the bounded sphere intersection, leading to the BVH
traversal claim. -/

/-- `tstar` is below both upper bounds when it is below the tighter one. -/
theorem oLT_trans {a b : ℝ} {tmaxO : Option ℝ} (h1 : a < b)
    (h2 : oLT b tmaxO) : oLT a tmaxO := by
  cases tmaxO with
  | none => trivial
  | some m => exact lt_trans h1 h2

/-- The bounded sphere intersection is the unbounded one clipped at the
upper bound. -/
theorem hitT_clip (s : Sphere) (ray : Ray) (tmaxO : Option ℝ) :
    s.hitT ray tmaxO =
      match s.hitT ray none with
      | none => none
      | some info => if oLT info.t tmaxO then some info else none := by
  cases tmaxO with
  | none =>
      cases hu : s.hitT ray none with
      | none => rfl
      | some info => simp [oLT]
  | some m =>
      simp only [Sphere.hitT]
      set B := (ray.origin - s.center).dot ray.dir with hB
      set C := (ray.origin - s.center).normSq - s.radius * s.radius with hC
      set S := Real.sqrt (B * B - C) with hS
      have hs : 0 ≤ S := by
        rw [hS]
        exact Real.sqrt_nonneg _
      have ht12 : -B - S ≤ -B + S := by linarith
      by_cases hd : B * B - C < 0
      · rw [if_pos hd, if_pos hd]
      · rw [if_neg hd, if_neg hd]
        by_cases h1 : EPSILON ≤ -B - S
        · rw [show (if EPSILON ≤ -B - S ∧ oLT (-B - S) none then
              some (⟨-B - S, (ray.at (-B - S) - s.center).divScalar s.radius⟩ :
                RawHitInfo)
            else if EPSILON ≤ -B + S ∧ oLT (-B + S) none then
              some ⟨-B + S, (ray.at (-B + S) - s.center).divScalar s.radius⟩
            else none) =
              some (⟨-B - S, (ray.at (-B - S) - s.center).divScalar s.radius⟩ :
                RawHitInfo) from if_pos ⟨h1, trivial⟩]
          dsimp only
          by_cases ho : oLT (-B - S) (some m)
          · rw [if_pos (⟨h1, ho⟩ :
              EPSILON ≤ -B - S ∧ oLT (-B - S) (some m)), if_pos ho]
          · rw [if_neg (fun h => ho h.2 :
              ¬(EPSILON ≤ -B - S ∧ oLT (-B - S) (some m))), if_neg ho]
            rw [if_neg]
            intro h
            exact ho (lt_of_le_of_lt ht12 h.2)
        · rw [show (if EPSILON ≤ -B - S ∧ oLT (-B - S) none then
              some (⟨-B - S, (ray.at (-B - S) - s.center).divScalar s.radius⟩ :
                RawHitInfo)
            else if EPSILON ≤ -B + S ∧ oLT (-B + S) none then
              some ⟨-B + S, (ray.at (-B + S) - s.center).divScalar s.radius⟩
            else none) =
              (if EPSILON ≤ -B + S ∧ oLT (-B + S) none then
              some ⟨-B + S, (ray.at (-B + S) - s.center).divScalar s.radius⟩
            else none) from if_neg (fun h => h1 h.1)]
          rw [if_neg (fun h => h1 h.1 :
            ¬(EPSILON ≤ -B - S ∧ oLT (-B - S) (some m)))]
          by_cases h2 : EPSILON ≤ -B + S
          · rw [show (if EPSILON ≤ -B + S ∧ oLT (-B + S) none then
                some (⟨-B + S, (ray.at (-B + S) - s.center).divScalar
                  s.radius⟩ : RawHitInfo)
              else none) =
                some (⟨-B + S, (ray.at (-B + S) - s.center).divScalar
                  s.radius⟩ : RawHitInfo) from if_pos ⟨h2, trivial⟩]
            dsimp only
            by_cases ho : oLT (-B + S) (some m)
            · rw [if_pos (⟨h2, ho⟩ :
                EPSILON ≤ -B + S ∧ oLT (-B + S) (some m)), if_pos ho]
            · rw [if_neg (fun h => ho h.2 :
                ¬(EPSILON ≤ -B + S ∧ oLT (-B + S) (some m))), if_neg ho]
          · rw [show (if EPSILON ≤ -B + S ∧ oLT (-B + S) none then
                some (⟨-B + S, (ray.at (-B + S) - s.center).divScalar
                  s.radius⟩ : RawHitInfo)
              else none) = none from if_neg (fun h => h2 h.1)]
            rw [if_neg (fun h => h2 h.1 :
              ¬(EPSILON ≤ -B + S ∧ oLT (-B + S) (some m)))]

/-- A bounded hit is the unbounded hit, and its parameter respects the
bound. -/
theorem hitT_some (s : Sphere) (ray : Ray) (tmaxO : Option ℝ)
    (info : RawHitInfo) (h : s.hitT ray tmaxO = some info) :
    s.hitT ray none = some info ∧ oLT info.t tmaxO := by
  rw [hitT_clip] at h
  cases hu : s.hitT ray none with
  | none =>
      rw [hu] at h
      cases h
  | some info0 =>
      rw [hu] at h
      dsimp only at h
      by_cases ho : oLT info0.t tmaxO
      · rw [if_pos ho] at h
        obtain rfl : info0 = info := Option.some.inj h
        exact ⟨rfl, ho⟩
      · rw [if_neg ho] at h
        cases h

/-- An unbounded hit below the bound is also the bounded hit. -/
theorem hitT_of_unbounded (s : Sphere) (ray : Ray) (tmaxO : Option ℝ)
    (info : RawHitInfo) (h : s.hitT ray none = some info)
    (ho : oLT info.t tmaxO) : s.hitT ray tmaxO = some info := by
  rw [hitT_clip, h]
  dsimp only
  rw [if_pos ho]

/-- The bounded hit is none exactly when the unbounded hit is none or lies
at or beyond the bound. -/
theorem hitT_none_iff (s : Sphere) (ray : Ray) (tmaxO : Option ℝ) :
    s.hitT ray tmaxO = none ↔
      ∀ info, s.hitT ray none = some info → ¬oLT info.t tmaxO := by
  rw [hitT_clip]
  cases hu : s.hitT ray none with
  | none => simp
  | some info0 =>
      dsimp only
      by_cases ho : oLT info0.t tmaxO
      · rw [if_pos ho]
        simp only [iff_iff_implies_and_implies]
        constructor
        · intro h
          cases h
        · intro h
          exact absurd ho (h info0 rfl)
      · rw [if_neg ho]
        simp only [true_iff]
        intro info hinfo
        obtain rfl : info0 = info := Option.some.inj hinfo
        exact ho

/-- The parameter of every unbounded sphere hit is at least `EPSILON`. -/
theorem hitT_ge_eps (s : Sphere) (ray : Ray) (info : RawHitInfo)
    (h : s.hitT ray none = some info) : EPSILON ≤ info.t := by
  simp only [Sphere.hitT] at h
  split_ifs at h with h1 h2 h3 <;>
    first
      | exact Option.noConfusion h
      | (obtain rfl : _ = info := Option.some.inj h; exact h2.1)
      | (obtain rfl : _ = info := Option.some.inj h; exact h3.1)

/-- The point of every unbounded sphere hit lies on the sphere surface,
for a unit ray direction. -/
theorem hitT_onSphere (s : Sphere) (ray : Ray) (info : RawHitInfo)
    (hunit : ray.dir.normSq = 1) (h : s.hitT ray none = some info) :
    (ray.at info.t - s.center).normSq = s.radius * s.radius := by
  have hq : ∀ u : ℝ,
      (u + (ray.origin - s.center).dot ray.dir) ^ 2 =
        ((ray.origin - s.center).dot ray.dir) *
          ((ray.origin - s.center).dot ray.dir) -
        ((ray.origin - s.center).normSq - s.radius * s.radius) →
      (ray.at u - s.center).normSq = s.radius * s.radius := by
    intro u hu
    rw [sphere_quadratic s ray u hunit]
    linear_combination hu
  simp only [Sphere.hitT] at h
  set b := (ray.origin - s.center).dot ray.dir with hb
  set cc := (ray.origin - s.center).normSq - s.radius * s.radius with hcc
  split_ifs at h with h1 h2 h3 <;>
    first
      | exact Option.noConfusion h
      | (obtain rfl : _ = info := Option.some.inj h;
         apply hq;
         first
           | (show (-b - Real.sqrt (b * b - cc) + b) ^ 2 = b * b - cc;
              rw [show -b - Real.sqrt (b * b - cc) + b
                  = -Real.sqrt (b * b - cc) by ring, neg_pow,
                Real.sq_sqrt (not_lt.mp h1)];
              ring)
           | (show (-b + Real.sqrt (b * b - cc) + b) ^ 2 = b * b - cc;
              rw [show -b + Real.sqrt (b * b - cc) + b
                  = Real.sqrt (b * b - cc) by ring,
                Real.sq_sqrt (not_lt.mp h1)]))

/-! Lemmas about the slab test, leading to its completeness on boxes that
contain a hit sphere. -/

/-- The slab interval of one axis brackets any parameter whose point lies
inside the slab, for a nonzero direction component. -/
theorem slabT_bracket (o d mn mx t : ℝ) (hd : d ≠ 0)
    (hlo : mn ≤ o + t * d) (hhi : o + t * d ≤ mx) :
    (slabT o d mn mx).1 ≤ t ∧ t ≤ (slabT o d mn mx).2 := by
  simp only [slabT]
  by_cases hinv : (0:ℝ) ≤ 1 / d
  · have hdpos : 0 < d := by
      rcases hd.lt_or_lt with hneg | hpos
      · exfalso
        have hx : 1 / d < 0 := div_neg_of_pos_of_neg one_pos hneg
        linarith
      · exact hpos
    rw [if_pos hinv]
    constructor
    · show (mn - o) * (1 / d) ≤ t
      rw [mul_one_div, div_le_iff hdpos]
      linarith
    · show t ≤ (mx - o) * (1 / d)
      rw [mul_one_div, le_div_iff hdpos]
      linarith
  · have hdneg : d < 0 := by
      rcases hd.lt_or_lt with hneg | hpos
      · exact hneg
      · exact absurd (le_of_lt (by positivity : (0:ℝ) < 1 / d)) hinv
    rw [if_neg hinv]
    constructor
    · show (mx - o) * (1 / d) ≤ t
      rw [mul_one_div, div_le_iff_of_neg hdneg]
      linarith
    · show t ≤ (mn - o) * (1 / d)
      rw [mul_one_div, le_div_iff_of_neg hdneg]
      linarith

/-- If the slab entry parameter equals `t`, the point at `t` lies on one of
the two slab planes. -/
theorem slabT_lo_contact (o d mn mx t : ℝ) (hd : d ≠ 0)
    (h : (slabT o d mn mx).1 = t) : o + t * d = mn ∨ o + t * d = mx := by
  simp only [slabT] at h
  by_cases hinv : (0:ℝ) ≤ 1 / d
  · rw [if_pos hinv] at h
    left
    dsimp only at h
    field_simp at h
    linarith
  · rw [if_neg hinv] at h
    right
    dsimp only at h
    field_simp at h
    linarith

/-- If the slab exit parameter equals `t`, the point at `t` lies on one of
the two slab planes. -/
theorem slabT_hi_contact (o d mn mx t : ℝ) (hd : d ≠ 0)
    (h : (slabT o d mn mx).2 = t) : o + t * d = mn ∨ o + t * d = mx := by
  simp only [slabT] at h
  by_cases hinv : (0:ℝ) ≤ 1 / d
  · rw [if_pos hinv] at h
    right
    dsimp only at h
    field_simp at h
    linarith
  · rw [if_neg hinv] at h
    left
    dsimp only at h
    field_simp at h
    linarith

/-- If both slab parameters of one axis coincide, the slab is degenerate. -/
theorem slabT_degenerate (o d mn mx t : ℝ) (hd : d ≠ 0)
    (hlo : (slabT o d mn mx).1 = t) (hhi : (slabT o d mn mx).2 = t) :
    mn = mx := by
  simp only [slabT] at hlo hhi
  by_cases hinv : (0:ℝ) ≤ 1 / d
  · rw [if_pos hinv] at hlo hhi
    dsimp only at hlo hhi
    field_simp at hlo hhi
    linarith
  · rw [if_neg hinv] at hlo hhi
    dsimp only at hlo hhi
    field_simp at hlo hhi
    linarith

/-- A real whose squared distance from `c` is at most `r²` lies within
`r` of `c`. -/
theorem interval_of_sq_le (A c r : ℝ) (h : (A - c) * (A - c) ≤ r * r)
    (hr : 0 < r) : c - r ≤ A ∧ A ≤ c + r := by
  constructor <;> nlinarith [h, hr]

/-- Completeness of the three-axis slab test: a box that contains a sphere
of positive radius is never rejected for a ray that meets that sphere at a
parameter strictly inside `(EPSILON, t_max)`, provided no direction
component is zero. -/
theorem slab_pass (box : Aabb) (s : Sphere) (ray : Ray) (tstar : ℝ)
    (tmaxO : Option ℝ)
    (hdx : ray.dir.x ≠ 0) (hdy : ray.dir.y ≠ 0) (hdz : ray.dir.z ≠ 0)
    (hr : 0 < s.radius) (hsub : subBox s.aabb box)
    (hon : (ray.at tstar - s.center).normSq = s.radius * s.radius)
    (heps : EPSILON < tstar) (hmax : oLT tstar tmaxO) :
    box.hit ray EPSILON tmaxO := by
  obtain ⟨hs1, hs2, hs3, hs4, hs5, hs6⟩ := hsub
  have hsbminx : s.aabb.min_point.x = s.center.x - s.radius := by
    simp only [Sphere.aabb, Aabb.new, Vec3.inf_x, Vec3.sub_x, Vec3.add_x,
      Vec3.fromElement_x]
    exact min_eq_left (by linarith)
  have hsbminy : s.aabb.min_point.y = s.center.y - s.radius := by
    simp only [Sphere.aabb, Aabb.new, Vec3.inf_y, Vec3.sub_y, Vec3.add_y,
      Vec3.fromElement_y]
    exact min_eq_left (by linarith)
  have hsbminz : s.aabb.min_point.z = s.center.z - s.radius := by
    simp only [Sphere.aabb, Aabb.new, Vec3.inf_z, Vec3.sub_z, Vec3.add_z,
      Vec3.fromElement_z]
    exact min_eq_left (by linarith)
  have hsbmaxx : s.aabb.max_point.x = s.center.x + s.radius := by
    simp only [Sphere.aabb, Aabb.new, Vec3.sup_x, Vec3.sub_x, Vec3.add_x,
      Vec3.fromElement_x]
    exact max_eq_right (by linarith)
  have hsbmaxy : s.aabb.max_point.y = s.center.y + s.radius := by
    simp only [Sphere.aabb, Aabb.new, Vec3.sup_y, Vec3.sub_y, Vec3.add_y,
      Vec3.fromElement_y]
    exact max_eq_right (by linarith)
  have hsbmaxz : s.aabb.max_point.z = s.center.z + s.radius := by
    simp only [Sphere.aabb, Aabb.new, Vec3.sup_z, Vec3.sub_z, Vec3.add_z,
      Vec3.fromElement_z]
    exact max_eq_right (by linarith)
  rw [hsbminx] at hs1
  rw [hsbminy] at hs2
  rw [hsbminz] at hs3
  rw [hsbmaxx] at hs4
  rw [hsbmaxy] at hs5
  rw [hsbmaxz] at hs6
  have E : (ray.origin.x + tstar * ray.dir.x - s.center.x) *
      (ray.origin.x + tstar * ray.dir.x - s.center.x) +
      (ray.origin.y + tstar * ray.dir.y - s.center.y) *
      (ray.origin.y + tstar * ray.dir.y - s.center.y) +
      (ray.origin.z + tstar * ray.dir.z - s.center.z) *
      (ray.origin.z + tstar * ray.dir.z - s.center.z) =
      s.radius * s.radius := hon
  have hX : (ray.origin.x + tstar * ray.dir.x - s.center.x) *
      (ray.origin.x + tstar * ray.dir.x - s.center.x) ≤
      s.radius * s.radius := by
    linarith [E, mul_self_nonneg (ray.origin.y + tstar * ray.dir.y -
      s.center.y), mul_self_nonneg (ray.origin.z + tstar * ray.dir.z -
      s.center.z)]
  have hY : (ray.origin.y + tstar * ray.dir.y - s.center.y) *
      (ray.origin.y + tstar * ray.dir.y - s.center.y) ≤
      s.radius * s.radius := by
    linarith [E, mul_self_nonneg (ray.origin.x + tstar * ray.dir.x -
      s.center.x), mul_self_nonneg (ray.origin.z + tstar * ray.dir.z -
      s.center.z)]
  have hZ : (ray.origin.z + tstar * ray.dir.z - s.center.z) *
      (ray.origin.z + tstar * ray.dir.z - s.center.z) ≤
      s.radius * s.radius := by
    linarith [E, mul_self_nonneg (ray.origin.x + tstar * ray.dir.x -
      s.center.x), mul_self_nonneg (ray.origin.y + tstar * ray.dir.y -
      s.center.y)]
  have hxlo := (interval_of_sq_le _ _ _ hX hr).1
  have hxhi := (interval_of_sq_le _ _ _ hX hr).2
  have hylo := (interval_of_sq_le _ _ _ hY hr).1
  have hyhi := (interval_of_sq_le _ _ _ hY hr).2
  have hzlo := (interval_of_sq_le _ _ _ hZ hr).1
  have hzhi := (interval_of_sq_le _ _ _ hZ hr).2
  simp only [Aabb.hit]
  set px := slabT ray.origin.x ray.dir.x box.min_point.x box.max_point.x
    with hpx
  set py := slabT ray.origin.y ray.dir.y box.min_point.y box.max_point.y
    with hpy
  set pz := slabT ray.origin.z ray.dir.z box.min_point.z box.max_point.z
    with hpz
  have hbx : px.1 ≤ tstar ∧ tstar ≤ px.2 := by
    rw [hpx]
    exact slabT_bracket _ _ _ _ _ hdx (by linarith) (by linarith)
  have hby : py.1 ≤ tstar ∧ tstar ≤ py.2 := by
    rw [hpy]
    exact slabT_bracket _ _ _ _ _ hdy (by linarith) (by linarith)
  have hbz : pz.1 ≤ tstar ∧ tstar ≤ pz.2 := by
    rw [hpz]
    exact slabT_bracket _ _ _ _ _ hdz (by linarith) (by linarith)
  have hflatx : px.1 = tstar → px.2 = tstar → False := by
    intro h1 h2
    rw [hpx] at h1 h2
    have hdeg := slabT_degenerate _ _ _ _ _ hdx h1 h2
    linarith
  have hflaty : py.1 = tstar → py.2 = tstar → False := by
    intro h1 h2
    rw [hpy] at h1 h2
    have hdeg := slabT_degenerate _ _ _ _ _ hdy h1 h2
    linarith
  have hflatz : pz.1 = tstar → pz.2 = tstar → False := by
    intro h1 h2
    rw [hpz] at h1 h2
    have hdeg := slabT_degenerate _ _ _ _ _ hdz h1 h2
    linarith
  have hsqx : px.1 = tstar ∨ px.2 = tstar →
      (ray.origin.x + tstar * ray.dir.x - s.center.x) *
        (ray.origin.x + tstar * ray.dir.x - s.center.x) =
        s.radius * s.radius := by
    intro h
    have hc : ray.origin.x + tstar * ray.dir.x = box.min_point.x ∨
        ray.origin.x + tstar * ray.dir.x = box.max_point.x := by
      rcases h with h | h
      · rw [hpx] at h
        exact slabT_lo_contact _ _ _ _ _ hdx h
      · rw [hpx] at h
        exact slabT_hi_contact _ _ _ _ _ hdx h
    rcases hc with hc | hc
    · have hvx : ray.origin.x + tstar * ray.dir.x = s.center.x - s.radius :=
        le_antisymm (by linarith) hxlo
      rw [hvx]
      ring
    · have hvx : ray.origin.x + tstar * ray.dir.x = s.center.x + s.radius :=
        le_antisymm hxhi (by linarith)
      rw [hvx]
      ring
  have hsqy : py.1 = tstar ∨ py.2 = tstar →
      (ray.origin.y + tstar * ray.dir.y - s.center.y) *
        (ray.origin.y + tstar * ray.dir.y - s.center.y) =
        s.radius * s.radius := by
    intro h
    have hc : ray.origin.y + tstar * ray.dir.y = box.min_point.y ∨
        ray.origin.y + tstar * ray.dir.y = box.max_point.y := by
      rcases h with h | h
      · rw [hpy] at h
        exact slabT_lo_contact _ _ _ _ _ hdy h
      · rw [hpy] at h
        exact slabT_hi_contact _ _ _ _ _ hdy h
    rcases hc with hc | hc
    · have hvy : ray.origin.y + tstar * ray.dir.y = s.center.y - s.radius :=
        le_antisymm (by linarith) hylo
      rw [hvy]
      ring
    · have hvy : ray.origin.y + tstar * ray.dir.y = s.center.y + s.radius :=
        le_antisymm hyhi (by linarith)
      rw [hvy]
      ring
  have hsqz : pz.1 = tstar ∨ pz.2 = tstar →
      (ray.origin.z + tstar * ray.dir.z - s.center.z) *
        (ray.origin.z + tstar * ray.dir.z - s.center.z) =
        s.radius * s.radius := by
    intro h
    have hc : ray.origin.z + tstar * ray.dir.z = box.min_point.z ∨
        ray.origin.z + tstar * ray.dir.z = box.max_point.z := by
      rcases h with h | h
      · rw [hpz] at h
        exact slabT_lo_contact _ _ _ _ _ hdz h
      · rw [hpz] at h
        exact slabT_hi_contact _ _ _ _ _ hdz h
    rcases hc with hc | hc
    · have hvz : ray.origin.z + tstar * ray.dir.z = s.center.z - s.radius :=
        le_antisymm (by linarith) hzlo
      rw [hvz]
      ring
    · have hvz : ray.origin.z + tstar * ray.dir.z = s.center.z + s.radius :=
        le_antisymm hzhi (by linarith)
      rw [hvz]
      ring
  have htwoxy : (ray.origin.x + tstar * ray.dir.x - s.center.x) *
      (ray.origin.x + tstar * ray.dir.x - s.center.x) = s.radius * s.radius →
      (ray.origin.y + tstar * ray.dir.y - s.center.y) *
      (ray.origin.y + tstar * ray.dir.y - s.center.y) = s.radius * s.radius →
      False := by
    intro u v
    linarith [E, mul_self_nonneg (ray.origin.z + tstar * ray.dir.z -
      s.center.z), mul_pos hr hr]
  have htwoxz : (ray.origin.x + tstar * ray.dir.x - s.center.x) *
      (ray.origin.x + tstar * ray.dir.x - s.center.x) = s.radius * s.radius →
      (ray.origin.z + tstar * ray.dir.z - s.center.z) *
      (ray.origin.z + tstar * ray.dir.z - s.center.z) = s.radius * s.radius →
      False := by
    intro u v
    linarith [E, mul_self_nonneg (ray.origin.y + tstar * ray.dir.y -
      s.center.y), mul_pos hr hr]
  have htwoyz : (ray.origin.y + tstar * ray.dir.y - s.center.y) *
      (ray.origin.y + tstar * ray.dir.y - s.center.y) = s.radius * s.radius →
      (ray.origin.z + tstar * ray.dir.z - s.center.z) *
      (ray.origin.z + tstar * ray.dir.z - s.center.z) = s.radius * s.radius →
      False := by
    intro u v
    linarith [E, mul_self_nonneg (ray.origin.x + tstar * ray.dir.x -
      s.center.x), mul_pos hr hr]
  have hm1 : max EPSILON px.1 ≤ tstar := max_le (le_of_lt heps) hbx.1
  have hM1 : tstar ≤ oMin tmaxO px.2 := by
    cases tmaxO with
    | none => exact hbx.2
    | some m => exact le_min (le_of_lt hmax) hbx.2
  have hm2 : max (max EPSILON px.1) py.1 ≤ tstar := max_le hm1 hby.1
  have hM2 : tstar ≤ min (oMin tmaxO px.2) py.2 := le_min hM1 hby.2
  have hm3 : max (max (max EPSILON px.1) py.1) pz.1 ≤ tstar := max_le hm2 hbz.1
  have hM3 : tstar ≤ min (min (oMin tmaxO px.2) py.2) pz.2 := le_min hM2 hbz.2
  have hlo1 : max EPSILON px.1 = tstar → px.1 = tstar := by
    intro h
    rcases max_choice EPSILON px.1 with hc | hc <;> rw [hc] at h
    · exact absurd h (ne_of_lt heps)
    · exact h
  have hhi1 : oMin tmaxO px.2 = tstar → px.2 = tstar := by
    intro h
    cases tmaxO with
    | none => exact h
    | some m =>
        rcases min_choice m px.2 with hc | hc <;> rw [show oMin (some m) px.2
            = min m px.2 from rfl] at h <;> rw [hc] at h
        · exact absurd h.symm (ne_of_lt hmax)
        · exact h
  have hlo2 : max (max EPSILON px.1) py.1 = tstar →
      px.1 = tstar ∨ py.1 = tstar := by
    intro h
    rcases max_choice (max EPSILON px.1) py.1 with hc | hc <;> rw [hc] at h
    · exact Or.inl (hlo1 h)
    · exact Or.inr h
  have hhi2 : min (oMin tmaxO px.2) py.2 = tstar →
      px.2 = tstar ∨ py.2 = tstar := by
    intro h
    rcases min_choice (oMin tmaxO px.2) py.2 with hc | hc <;> rw [hc] at h
    · exact Or.inl (hhi1 h)
    · exact Or.inr h
  have hlo3 : max (max (max EPSILON px.1) py.1) pz.1 = tstar →
      (px.1 = tstar ∨ py.1 = tstar) ∨ pz.1 = tstar := by
    intro h
    rcases max_choice (max (max EPSILON px.1) py.1) pz.1 with hc | hc <;>
      rw [hc] at h
    · exact Or.inl (hlo2 h)
    · exact Or.inr h
  have hhi3 : min (min (oMin tmaxO px.2) py.2) pz.2 = tstar →
      (px.2 = tstar ∨ py.2 = tstar) ∨ pz.2 = tstar := by
    intro h
    rcases min_choice (min (oMin tmaxO px.2) py.2) pz.2 with hc | hc <;>
      rw [hc] at h
    · exact Or.inl (hhi2 h)
    · exact Or.inr h
  refine ⟨?_, ?_, ?_⟩
  · intro hle
    have hmeq : max EPSILON px.1 = tstar :=
      le_antisymm hm1 (le_trans hM1 hle)
    have hMeq : oMin tmaxO px.2 = tstar :=
      le_antisymm (le_trans hle hm1) hM1
    exact hflatx (hlo1 hmeq) (hhi1 hMeq)
  · intro hle
    have hmeq : max (max EPSILON px.1) py.1 = tstar :=
      le_antisymm hm2 (le_trans hM2 hle)
    have hMeq : min (oMin tmaxO px.2) py.2 = tstar :=
      le_antisymm (le_trans hle hm2) hM2
    rcases hlo2 hmeq with h | h <;> rcases hhi2 hMeq with h' | h'
    · exact hflatx h h'
    · exact htwoxy (hsqx (Or.inl h)) (hsqy (Or.inr h'))
    · exact htwoxy (hsqx (Or.inr h')) (hsqy (Or.inl h))
    · exact hflaty h h'
  · intro hle
    have hmeq : max (max (max EPSILON px.1) py.1) pz.1 = tstar :=
      le_antisymm hm3 (le_trans hM3 hle)
    have hMeq : min (min (oMin tmaxO px.2) py.2) pz.2 = tstar :=
      le_antisymm (le_trans hle hm3) hM3
    rcases hlo3 hmeq with h | h <;> rcases hhi3 hMeq with h' | h'
    · rcases h with h | h <;> rcases h' with h' | h'
      · exact hflatx h h'
      · exact htwoxy (hsqx (Or.inl h)) (hsqy (Or.inr h'))
      · exact htwoxy (hsqx (Or.inr h')) (hsqy (Or.inl h))
      · exact hflaty h h'
    · rcases h with h | h
      · exact htwoxz (hsqx (Or.inl h)) (hsqz (Or.inr h'))
      · exact htwoyz (hsqy (Or.inl h)) (hsqz (Or.inr h'))
    · rcases h' with h' | h'
      · exact htwoxz (hsqx (Or.inr h')) (hsqz (Or.inl h))
      · exact htwoyz (hsqy (Or.inr h')) (hsqz (Or.inl h))
    · exact hflatz h h'

/-- Unfolding of `BvhNode::hit` at a leaf. -/
theorem BvhNode.hit_leaf (bounds : Aabb) (prim : Primitive) (ray : Ray)
    (tmaxO : Option ℝ) :
    (BvhNode.leaf bounds prim).hit ray tmaxO =
      if bounds.hit ray EPSILON tmaxO then
        (prim.geom.hitT ray tmaxO).map (fun info => (prim, info))
      else none := rfl

/-- Unfolding of `BvhNode::hit` at an interior node; the right child is
searched under the bound tightened by the left hit. -/
theorem BvhNode.hit_interior (bounds : Aabb) (l r : BvhNode) (ray : Ray)
    (tmaxO : Option ℝ) :
    (BvhNode.interior bounds l r).hit ray tmaxO =
      if bounds.hit ray EPSILON tmaxO then
        match l.hit ray tmaxO,
          r.hit ray (tightened (l.hit ray tmaxO) tmaxO) with
        | none, some h => some h
        | some (pl, il), some (pr, ir) =>
            if ir.t < il.t then some (pr, ir) else some (pl, il)
        | _, _ => l.hit ray tmaxO
      else none := rfl

theorem tightened_none (tmaxO : Option ℝ) : tightened none tmaxO = tmaxO := rfl

theorem tightened_some (p : Primitive) (i : RawHitInfo) (tmaxO : Option ℝ) :
    tightened (some (p, i)) tmaxO = some i.t := rfl

/-- Correctness of `BvhNode::hit` on well-formed trees: the traversal
returns none exactly when no subtree primitive has an unbounded hit below
the bound, and any returned hit is a bounded hit of a subtree primitive of
minimal parameter.  Requires positive radii, no zero direction component, a
unit direction, and no primitive hit at exactly `EPSILON`. -/
theorem bvh_hit_spec (ray : Ray)
    (hdx : ray.dir.x ≠ 0) (hdy : ray.dir.y ≠ 0) (hdz : ray.dir.z ≠ 0)
    (hunit : ray.dir.normSq = 1) :
    ∀ n : BvhNode, n.wf →
    (∀ p ∈ n.subtreePrims, 0 < p.geom.radius) →
    (∀ p ∈ n.subtreePrims, ∀ info, p.geom.hitT ray none = some info →
      info.t ≠ EPSILON) →
    ∀ tmaxO : Option ℝ,
      (n.hit ray tmaxO = none ↔
        ∀ p ∈ n.subtreePrims, ∀ info, p.geom.hitT ray none = some info →
          ¬oLT info.t tmaxO) ∧
      (∀ pr info, n.hit ray tmaxO = some (pr, info) →
        pr ∈ n.subtreePrims ∧ pr.geom.hitT ray tmaxO = some info ∧
        ∀ q ∈ n.subtreePrims, ∀ info', q.geom.hitT ray none = some info' →
          oLT info'.t tmaxO → info.t ≤ info'.t) := by
  intro n
  induction n with
  | leaf bounds prim =>
      intro hwf hr heps tmaxO
      have hb : bounds = prim.geom.aabb := hwf
      have hprimmem : prim ∈ (BvhNode.leaf bounds prim).subtreePrims := by
        simp [BvhNode.subtreePrims]
      rw [BvhNode.hit_leaf]
      by_cases hslab : bounds.hit ray EPSILON tmaxO
      · rw [if_pos hslab]
        constructor
        · constructor
          · intro hnone p hp info hinfo ho
            obtain rfl : p = prim := by
              simpa [BvhNode.subtreePrims] using hp
            rw [hitT_of_unbounded _ _ _ _ hinfo ho] at hnone
            cases hnone
          · intro hval
            cases hh : prim.geom.hitT ray tmaxO with
            | none => rfl
            | some info =>
                obtain ⟨hu, ho⟩ := hitT_some _ _ _ _ hh
                exact absurd ho (hval prim hprimmem info hu)
        · intro pr info hsome
          cases hh : prim.geom.hitT ray tmaxO with
          | none =>
              rw [hh] at hsome
              cases hsome
          | some info0 =>
              rw [hh] at hsome
              have h12 := Option.some.inj hsome
              rw [Prod.mk.injEq] at h12
              obtain ⟨rfl, rfl⟩ := h12
              refine ⟨hprimmem, hh, ?_⟩
              intro q hq info' hinfo' ho'
              obtain rfl : q = prim := by
                simpa [BvhNode.subtreePrims] using hq
              obtain ⟨hu, _⟩ := hitT_some _ _ _ _ hh
              rw [hu] at hinfo'
              obtain rfl : info0 = info' := Option.some.inj hinfo'
              exact le_refl _
      · rw [if_neg hslab]
        constructor
        · constructor
          · intro _ p hp info hinfo ho
            obtain rfl : p = prim := by
              simpa [BvhNode.subtreePrims] using hp
            refine absurd (slab_pass bounds p.geom ray info.t tmaxO hdx hdy hdz
              (hr p hprimmem) ?_ (hitT_onSphere _ _ _ hunit hinfo)
              (lt_of_le_of_ne (hitT_ge_eps _ _ _ hinfo)
                ((heps p hprimmem info hinfo).symm)) ho) hslab
            rw [hb]
            exact subBox_refl _
          · intro _
            rfl
        · intro pr info h
          cases h
  | interior bounds l r ihl ihr =>
      intro hwf hr heps tmaxO
      obtain ⟨hbEq, hwfl, hwfr⟩ := hwf
      have hwfI : (BvhNode.interior bounds l r).wf := ⟨hbEq, hwfl, hwfr⟩
      have hrl : ∀ p ∈ l.subtreePrims, 0 < p.geom.radius := fun p hp =>
        hr p (List.mem_append_left _ hp)
      have hrr : ∀ p ∈ r.subtreePrims, 0 < p.geom.radius := fun p hp =>
        hr p (List.mem_append_right _ hp)
      have hepsl : ∀ p ∈ l.subtreePrims, ∀ info,
          p.geom.hitT ray none = some info → info.t ≠ EPSILON := fun p hp =>
        heps p (List.mem_append_left _ hp)
      have hepsr : ∀ p ∈ r.subtreePrims, ∀ info,
          p.geom.hitT ray none = some info → info.t ≠ EPSILON := fun p hp =>
        heps p (List.mem_append_right _ hp)
      have ihL := ihl hwfl hrl hepsl
      have ihR := ihr hwfr hrr hepsr
      rw [BvhNode.hit_interior]
      by_cases hslab : bounds.hit ray EPSILON tmaxO
      · rw [if_pos hslab]
        cases hL : l.hit ray tmaxO with
        | none =>
            have hnoneL := (ihL tmaxO).1.mp hL
            rw [tightened_none]
            cases hR : r.hit ray tmaxO with
            | none =>
                have hnoneR := (ihR tmaxO).1.mp hR
                constructor
                · constructor
                  · intro _ p hp info hinfo ho
                    rcases List.mem_append.mp hp with hp' | hp'
                    · exact hnoneL p hp' info hinfo ho
                    · exact hnoneR p hp' info hinfo ho
                  · intro _
                    rfl
                · intro pr info h
                  cases h
            | some prinfo =>
                obtain ⟨pr0, ir0⟩ := prinfo
                obtain ⟨hmemR, hhitR, hminR⟩ := (ihR tmaxO).2 pr0 ir0 hR
                obtain ⟨huR, hoR⟩ := hitT_some _ _ _ _ hhitR
                constructor
                · constructor
                  · intro h
                    cases h
                  · intro hval
                    exact absurd hoR
                      (hval pr0 (List.mem_append_right _ hmemR) ir0 huR)
                · intro pr info h
                  have h12 := Option.some.inj h
                  rw [Prod.mk.injEq] at h12
                  obtain ⟨rfl, rfl⟩ := h12
                  refine ⟨List.mem_append_right _ hmemR, hhitR, ?_⟩
                  intro q hq info' hinfo' ho'
                  rcases List.mem_append.mp hq with hq' | hq'
                  · exact absurd ho' (hnoneL q hq' info' hinfo')
                  · exact hminR q hq' info' hinfo' ho'
        | some plinfo =>
            obtain ⟨pl, il⟩ := plinfo
            obtain ⟨hmemL, hhitL, hminL⟩ := (ihL tmaxO).2 pl il hL
            obtain ⟨huL, hoL⟩ := hitT_some _ _ _ _ hhitL
            rw [tightened_some]
            cases hR : r.hit ray (some il.t) with
            | none =>
                have hnoneR := (ihR (some il.t)).1.mp hR
                constructor
                · constructor
                  · intro h
                    cases h
                  · intro hval
                    exact absurd hoL
                      (hval pl (List.mem_append_left _ hmemL) il huL)
                · intro pr info h
                  have h12 := Option.some.inj h
                  rw [Prod.mk.injEq] at h12
                  obtain ⟨rfl, rfl⟩ := h12
                  refine ⟨List.mem_append_left _ hmemL, hhitL, ?_⟩
                  intro q hq info' hinfo' ho'
                  rcases List.mem_append.mp hq with hq' | hq'
                  · exact hminL q hq' info' hinfo' ho'
                  · exact not_lt.mp (hnoneR q hq' info' hinfo')
            | some prinfo =>
                obtain ⟨pr0, ir0⟩ := prinfo
                obtain ⟨hmemR, hhitR, hminR⟩ := (ihR (some il.t)).2 pr0 ir0 hR
                obtain ⟨huR, hoR⟩ := hitT_some _ _ _ _ hhitR
                have hlt : ir0.t < il.t := hoR
                have hoR' : oLT ir0.t tmaxO := oLT_trans hlt hoL
                dsimp only
                rw [if_pos hlt]
                constructor
                · constructor
                  · intro h
                    cases h
                  · intro hval
                    exact absurd hoR'
                      (hval pr0 (List.mem_append_right _ hmemR) ir0 huR)
                · intro pr info h
                  have h12 := Option.some.inj h
                  rw [Prod.mk.injEq] at h12
                  obtain ⟨rfl, rfl⟩ := h12
                  refine ⟨List.mem_append_right _ hmemR,
                    hitT_of_unbounded _ _ _ _ huR hoR', ?_⟩
                  intro q hq info' hinfo' ho'
                  rcases List.mem_append.mp hq with hq' | hq'
                  · have hq1 := hminL q hq' info' hinfo' ho'
                    linarith
                  · by_cases hcomp : info'.t < il.t
                    · exact hminR q hq' info' hinfo' hcomp
                    · push_neg at hcomp
                      linarith
      · rw [if_neg hslab]
        constructor
        · constructor
          · intro _ p hp info hinfo ho
            exact absurd (slab_pass bounds p.geom ray info.t tmaxO hdx hdy hdz
              (hr p hp) (wf_subBox hwfI hp) (hitT_onSphere _ _ _ hunit hinfo)
              (lt_of_le_of_ne (hitT_ge_eps _ _ _ hinfo)
                ((heps p hp info hinfo).symm)) ho) hslab
          · intro _
            rfl
        · intro pr info h
          cases h

/-- Evaluation rule for `Sphere.hitT` when the smaller root is accepted:
supply the quadratic coefficients and the square root in closed form. -/
theorem hitT_eval_lo (s : Sphere) (ray : Ray) (tmaxO : Option ℝ) (b c rad : ℝ)
    (hb : (ray.origin - s.center).dot ray.dir = b)
    (hc : (ray.origin - s.center).normSq - s.radius * s.radius = c)
    (hrad : Real.sqrt (b * b - c) = rad)
    (hdisc : ¬b * b - c < 0)
    (h1 : EPSILON ≤ -b - rad ∧ oLT (-b - rad) tmaxO) :
    s.hitT ray tmaxO =
      some ⟨-b - rad, (ray.at (-b - rad) - s.center).divScalar s.radius⟩ := by
  simp only [Sphere.hitT]
  rw [hb, hc, hrad, if_neg hdisc, if_pos h1]

/-- Evaluation rule for `Sphere.hitT` when the smaller root is rejected and
the larger root is accepted. -/
theorem hitT_eval_hi (s : Sphere) (ray : Ray) (tmaxO : Option ℝ) (b c rad : ℝ)
    (hb : (ray.origin - s.center).dot ray.dir = b)
    (hc : (ray.origin - s.center).normSq - s.radius * s.radius = c)
    (hrad : Real.sqrt (b * b - c) = rad)
    (hdisc : ¬b * b - c < 0)
    (h1 : ¬(EPSILON ≤ -b - rad ∧ oLT (-b - rad) tmaxO))
    (h2 : EPSILON ≤ -b + rad ∧ oLT (-b + rad) tmaxO) :
    s.hitT ray tmaxO =
      some ⟨-b + rad, (ray.at (-b + rad) - s.center).divScalar s.radius⟩ := by
  simp only [Sphere.hitT]
  rw [hb, hc, hrad, if_neg hdisc, if_neg h1, if_pos h2]

/-- Claim C1 (as amended): for a BVH built from a list of primitives and a
ray with unit direction and no zero component, when every sphere has
positive radius and no primitive is met at parameter exactly `EPSILON`,
`BvhNode::hit` under the bound `t_max` returns none exactly when no
primitive of the list is hit with `t` in `[EPSILON, t_max)`, and otherwise
returns a primitive of the list together with its hit record whose `t` is
minimal among all primitives hit in that range; moreover at every interior
node of the tree the bound passed to the right child is the left child's
hit `t` when the left child hit, else the incoming bound. -/
theorem claim_C1 (ps : List Primitive) (root : BvhNode)
    (hbuild : build ps = some root) (ray : Ray)
    (hdx : ray.dir.x ≠ 0) (hdy : ray.dir.y ≠ 0) (hdz : ray.dir.z ≠ 0)
    (hunit : ray.dir.normSq = 1)
    (hradius : ∀ p ∈ ps, 0 < p.geom.radius)
    (heps : ∀ p ∈ ps, ∀ info, p.geom.hitT ray none = some info →
      info.t ≠ EPSILON)
    (tmax : ℝ) :
    (root.hit ray (some tmax) = none ↔
      ∀ p ∈ ps, ∀ info, p.geom.hitT ray none = some info →
        ¬info.t < tmax) ∧
    (∀ pr info, root.hit ray (some tmax) = some (pr, info) →
      pr ∈ ps ∧ pr.geom.hitT ray (some tmax) = some info ∧
      ∀ q ∈ ps, ∀ info', q.geom.hitT ray none = some info' →
        info'.t < tmax → info.t ≤ info'.t) ∧
    (∀ bounds l r, BvhNode.interior bounds l r ∈ root.allNodes →
      ∀ tmaxO, (BvhNode.interior bounds l r).hit ray tmaxO =
        (if Aabb.hit bounds ray EPSILON tmaxO then
          match l.hit ray tmaxO,
            r.hit ray (tightened (l.hit ray tmaxO) tmaxO) with
          | none, some h => some h
          | some (pl, il), some (pr, ir) =>
              if ir.t < il.t then some (pr, ir) else some (pl, il)
          | _, _ => l.hit ray tmaxO
        else none) ∧
        (∀ pl il, l.hit ray tmaxO = some (pl, il) →
          tightened (l.hit ray tmaxO) tmaxO = some il.t) ∧
        (l.hit ray tmaxO = none →
          tightened (l.hit ray tmaxO) tmaxO = tmaxO)) := by
  have hbl : ∀ tp ∈ ps.map tagPrimitive, tp.bounds = tp.prim.geom.aabb := by
    intro tp htp
    obtain ⟨p, _, rfl⟩ := List.mem_map.mp htp
    rfl
  obtain ⟨hperm, hwf⟩ := do_build_wf (ps.map tagPrimitive).length
    (ps.map tagPrimitive) le_rfl hbl root hbuild
  have hpermP : root.subtreePrims.Perm ps := by
    have hmm : (ps.map tagPrimitive).map (fun tp => tp.prim) = ps := by
      rw [List.map_map]
      show ps.map (fun p => p) = ps
      simp
    rw [hmm] at hperm
    exact hperm
  have hmem : ∀ p : Primitive, p ∈ root.subtreePrims ↔ p ∈ ps := fun p =>
    hpermP.mem_iff
  have hr' : ∀ p ∈ root.subtreePrims, 0 < p.geom.radius := fun p hp =>
    hradius p ((hmem p).mp hp)
  have heps' : ∀ p ∈ root.subtreePrims, ∀ info,
      p.geom.hitT ray none = some info → info.t ≠ EPSILON := fun p hp =>
    heps p ((hmem p).mp hp)
  have hspec := bvh_hit_spec ray hdx hdy hdz hunit root hwf hr' heps'
    (some tmax)
  refine ⟨?_, ?_, ?_⟩
  · constructor
    · intro h p hp info hinfo
      exact hspec.1.mp h p ((hmem p).mpr hp) info hinfo
    · intro h
      exact hspec.1.mpr fun p hp info hinfo => h p ((hmem p).mp hp) info hinfo
  · intro pr info h
    obtain ⟨h1, h2, h3⟩ := hspec.2 pr info h
    exact ⟨(hmem pr).mp h1, h2,
      fun q hq info' hinfo' ho' => h3 q ((hmem q).mpr hq) info' hinfo' ho'⟩
  · intro bounds l r _ tmaxO
    refine ⟨rfl, fun pl il h => ?_, fun h => ?_⟩
    · rw [h, tightened_some]
    · rw [h, tightened_none]

/-- Witness for claim C1: a single unit sphere at `(2,2,1)` viewed from the
origin along `(2/3,2/3,1/3)` is hit at `t = 2 < 10`, so the traversal of
the one-leaf BVH under bound `10` cannot return none. -/
theorem claim_C1_witness :
    build [⟨⟨⟨2, 2, 1⟩, 1⟩, diffuseMaterial (Vec3.fromElement 1)⟩] =
      some (BvhNode.leaf ⟨⟨1, 1, 0⟩, ⟨3, 3, 2⟩⟩
        ⟨⟨⟨2, 2, 1⟩, 1⟩, diffuseMaterial (Vec3.fromElement 1)⟩) ∧
    Sphere.hitT ⟨⟨2, 2, 1⟩, 1⟩ ⟨⟨0, 0, 0⟩, ⟨2/3, 2/3, 1/3⟩⟩ none =
      some ⟨2, ⟨-2/3, -2/3, -1/3⟩⟩ ∧
    (2:ℝ) < 10 ∧
    (BvhNode.leaf ⟨⟨1, 1, 0⟩, ⟨3, 3, 2⟩⟩
        ⟨⟨⟨2, 2, 1⟩, 1⟩, diffuseMaterial (Vec3.fromElement 1)⟩).hit
      ⟨⟨0, 0, 0⟩, ⟨2/3, 2/3, 1/3⟩⟩ (some 10) ≠ none := by
  have hbuild : build [⟨⟨⟨2, 2, 1⟩, 1⟩, diffuseMaterial (Vec3.fromElement 1)⟩] =
      some (BvhNode.leaf ⟨⟨1, 1, 0⟩, ⟨3, 3, 2⟩⟩
        ⟨⟨⟨2, 2, 1⟩, 1⟩, diffuseMaterial (Vec3.fromElement 1)⟩) := by
    simp only [build, List.map_cons, List.map_nil, do_build, tagPrimitive]
    norm_num [Sphere.aabb, Aabb.new, Vec3.fromElement, Vec3.ext_iff,
      Aabb.mk.injEq, Vec3.inf, Vec3.sup]
  have hhit : Sphere.hitT ⟨⟨2, 2, 1⟩, 1⟩ ⟨⟨0, 0, 0⟩, ⟨2/3, 2/3, 1/3⟩⟩ none =
      some ⟨2, ⟨-2/3, -2/3, -1/3⟩⟩ := by
    rw [hitT_eval_lo ⟨⟨2, 2, 1⟩, 1⟩ ⟨⟨0, 0, 0⟩, ⟨2/3, 2/3, 1/3⟩⟩ none (-3) 8 1
      (by norm_num [Vec3.dot]) (by norm_num [Vec3.normSq])
      (by norm_num [Real.sqrt_one]) (by norm_num)
      ⟨by norm_num [EPSILON], by simp [oLT]⟩]
    norm_num [Ray.at, Vec3.ext_iff, RawHitInfo.mk.injEq]
  refine ⟨hbuild, hhit, by norm_num, fun hnone => ?_⟩
  have hmiss := (claim_C1
      [⟨⟨⟨2, 2, 1⟩, 1⟩, diffuseMaterial (Vec3.fromElement 1)⟩]
      (BvhNode.leaf ⟨⟨1, 1, 0⟩, ⟨3, 3, 2⟩⟩
        ⟨⟨⟨2, 2, 1⟩, 1⟩, diffuseMaterial (Vec3.fromElement 1)⟩)
      hbuild ⟨⟨0, 0, 0⟩, ⟨2/3, 2/3, 1/3⟩⟩
      (by norm_num) (by norm_num) (by norm_num) (by norm_num [Vec3.normSq])
      (by
        intro p hp
        obtain rfl : p = ⟨⟨⟨2, 2, 1⟩, 1⟩, diffuseMaterial (Vec3.fromElement 1)⟩ :=
          by simpa using hp
        norm_num)
      (by
        intro p hp info hinfo
        obtain rfl : p = ⟨⟨⟨2, 2, 1⟩, 1⟩, diffuseMaterial (Vec3.fromElement 1)⟩ :=
          by simpa using hp
        rw [hhit] at hinfo
        obtain rfl := Option.some.inj hinfo
        show (2:ℝ) ≠ EPSILON
        norm_num [EPSILON])
      10).1.mp hnone
    ⟨⟨⟨2, 2, 1⟩, 1⟩, diffuseMaterial (Vec3.fromElement 1)⟩ (by simp)
    ⟨2, ⟨-2/3, -2/3, -1/3⟩⟩ hhit
  exact hmiss (by norm_num)

/-- Counterexample to claim C1 as stated: a unit sphere at the origin and a
ray that meets it at `t = EPSILON`, exactly where the ray leaves the
bounding box through the plane `z = 1`.  The spec-modelled primitive test
accepts `t = EPSILON < t_max = 1`, but the slab test of `BvhNode::hit`
computes a degenerate interval `t_min = t_max = EPSILON` on the z axis and
rejects it with its non-strict comparison, so the traversal misses a hit
the claim says it must return. -/
theorem claim_C1_cx :
    build [⟨⟨⟨0, 0, 0⟩, 1⟩, diffuseMaterial (Vec3.fromElement 1)⟩] =
      some (BvhNode.leaf ⟨⟨-1, -1, -1⟩, ⟨1, 1, 1⟩⟩
        ⟨⟨⟨0, 0, 0⟩, 1⟩, diffuseMaterial (Vec3.fromElement 1)⟩) ∧
    Sphere.hitT ⟨⟨0, 0, 0⟩, 1⟩
      ⟨⟨-(2*EPSILON)/3, -(2*EPSILON)/3, 1 - EPSILON/3⟩, ⟨2/3, 2/3, 1/3⟩⟩
      (some 1) = some ⟨EPSILON, ⟨0, 0, 1⟩⟩ ∧
    EPSILON < 1 ∧
    (BvhNode.leaf ⟨⟨-1, -1, -1⟩, ⟨1, 1, 1⟩⟩
        ⟨⟨⟨0, 0, 0⟩, 1⟩, diffuseMaterial (Vec3.fromElement 1)⟩).hit
      ⟨⟨-(2*EPSILON)/3, -(2*EPSILON)/3, 1 - EPSILON/3⟩, ⟨2/3, 2/3, 1/3⟩⟩
      (some 1) = none := by
  refine ⟨?_, ?_, by norm_num [EPSILON], ?_⟩
  · simp only [build, List.map_cons, List.map_nil, do_build, tagPrimitive]
    norm_num [Sphere.aabb, Aabb.new, Vec3.fromElement, Vec3.ext_iff,
      Aabb.mk.injEq, Vec3.inf, Vec3.sup]
  · rw [hitT_eval_hi ⟨⟨0, 0, 0⟩, 1⟩
      ⟨⟨-(2*EPSILON)/3, -(2*EPSILON)/3, 1 - EPSILON/3⟩, ⟨2/3, 2/3, 1/3⟩⟩
      (some 1) (1/3 - EPSILON) (EPSILON*EPSILON - 2*EPSILON/3) (1/3)
      (by simp only [Vec3.dot, Vec3.sub_x, Vec3.sub_y, Vec3.sub_z]
          ring)
      (by simp only [Vec3.normSq, Vec3.sub_x, Vec3.sub_y, Vec3.sub_z]
          ring)
      (by rw [show (1/3 - EPSILON)*(1/3 - EPSILON) -
            (EPSILON*EPSILON - 2*EPSILON/3) = ((1:ℝ)/3)^2 by ring]
          exact Real.sqrt_sq (by norm_num))
      (by rw [show (1/3 - EPSILON)*(1/3 - EPSILON) -
            (EPSILON*EPSILON - 2*EPSILON/3) = ((1:ℝ)/9) by ring]
          norm_num)
      (by rintro ⟨hh, -⟩
          linarith)
      ⟨le_of_eq (by ring),
        by show -(1/3 - EPSILON) + 1/3 < 1
           norm_num [EPSILON]⟩]
    rw [show (-(1/3 - EPSILON) + 1/3 : ℝ) = EPSILON by ring]
    norm_num [Ray.at, Vec3.ext_iff, RawHitInfo.mk.injEq]
    constructor <;> ring
  · rw [BvhNode.hit_leaf, if_neg ?_]
    intro hcontra
    revert hcontra
    simp only [Aabb.hit]
    rintro ⟨-, -, h3⟩
    apply h3
    have hz : (slabT (1 - EPSILON/3) (1/3) (-1) 1).2 = EPSILON := by
      simp only [slabT]
      rw [if_pos (by norm_num : (0:ℝ) ≤ 1/(1/3))]
      show (1 - (1 - EPSILON/3)) * (1/(1/3)) = EPSILON
      ring
    refine le_trans (min_le_right _ _) ?_
    rw [hz]
    exact le_max_of_le_left (le_max_of_le_left (le_max_left _ _))

end Rtow

end
